import Mathlib

/-!
Verification of the skycoin wallet Service (`src/wallet/service.go`, provided as
`src/unnamed/part_001`) against its natural-language specification.

The Service code is translated line by line from the Go source.  The Wallet
entity, the crypto-guard protocol and the wallets-collection helpers
(`wallet.go` / `wallets.go`) are not part of the provided sources; they are
modelled from the specification (sections 3, 4.2, 4.3, 4.4, 4.5) and each such
definition carries a doc comment starting with `Modelled from the spec:`.

Conventions of the embedding:
* Go maps become association lists with `mapGet` / `mapSet` / `mapDel`.
* Go `[]byte` passwords become `String`; `len(p) == 0` becomes `p = ""`.
* Disk I/O becomes an explicit `Disk` value threaded through every operation,
  plus a boolean `saveOk` input standing for the environment's verdict on the
  one durable save an operation performs; a failed save leaves the disk value
  unchanged (the spec's atomic replace-on-save).
* Every Service method returns `(result, service, disk)` so that frame
  properties ("the store is unchanged") are statable.
-/

deriving instance DecidableEq for Except

/-- Association-list lookup, mirroring a read from a Go map. -/
def mapGet {κ α : Type} [DecidableEq κ] (m : List (κ × α)) (k : κ) : Option α :=
  match m with
  | [] => none
  | p :: rest => if p.1 = k then some p.2 else mapGet rest k

/-- Association-list deletion, mirroring `delete` on a Go map. -/
def mapDel {κ α : Type} [DecidableEq κ] (m : List (κ × α)) (k : κ) : List (κ × α) :=
  m.filter (fun p => p.1 ≠ k)

/-- Association-list insert-or-replace, mirroring `m[k] = v` on a Go map. -/
def mapSet {κ α : Type} [DecidableEq κ] (m : List (κ × α)) (k : κ) (v : α) : List (κ × α) :=
  (k, v) :: mapDel m k

/-- Error taxonomy of the wallet package, named after the Go error values
(`ErrWalletAPIDisabled`, `ErrSeedUsed`, ...).  The spec's taxonomy maps onto
these: `FeatureDisabled` ↦ `walletAPIDisabled`/`seedAPIDisabled`, `NotFound` ↦
`walletNotExist`, `AlreadyInState` ↦ `walletEncrypted`/`walletNotEncrypted`,
`AuthenticationFailure` ↦ `authFailure`, `SeedConflict` ↦ `seedUsed`,
`RecoveryMismatch` ↦ `recoverSeedWrong`, `Persistence` ↦ `persistence`,
`StartupIntegrity` ↦ `startupDuplicate`/`startupEmpty`, and the `Validation`
variants `MissingPassword`/`PasswordNotExpected` ↦
`missingPassword`/`walletNotEncrypted`. -/
inductive Err : Type where
  | walletAPIDisabled
  | seedAPIDisabled
  | walletNotExist
  | walletEncrypted
  | walletNotEncrypted
  | missingPassword
  | seedUsed
  | nameConflict
  | recoverSeedWrong
  | walletNotDeterministic
  | authFailure
  | validation
  | persistence
  | startupDuplicate
  | startupEmpty
deriving DecidableEq, Repr

/-- Modelled from the spec: §3 AddressEntry — `{ address, public key, optional
private key }`; the private key is absent (`none`) exactly while the wallet is
encrypted.  The public key is omitted because no claim mentions it and it is
re-derivable from the address in this model. -/
structure Entry : Type where
  address : String
  secret : Option String
deriving DecidableEq, Repr

/-- Modelled from the spec: §3 — when `encrypted == true`, the seed and every
entry's private key "exist only inside one opaque encrypted blob".  The blob
records the password used by `Lock` (standing for the derived AEAD key: `Unlock`
with the same password authenticates, any other password fails) together with
the hidden seed and the hidden per-entry private keys. -/
structure Secrets : Type where
  password : String
  seed : String
  keys : List (Option String)
deriving DecidableEq, Repr

/-- Modelled from the spec: §3 Wallet — id (the filename), label, coin type,
wallet type, crypto scheme, encrypted flag, entries, seed (plaintext only while
decrypted, `""` while encrypted), timestamp.  `secrets` is the opaque encrypted
blob, present exactly while `encrypted` is true. -/
structure Wallet : Type where
  filename : String
  label : String
  coin : String
  walletType : String
  cryptoType : String
  encrypted : Bool
  seed : String
  secrets : Option Secrets
  entries : List Entry
  timestamp : Nat
deriving DecidableEq, Repr, Inhabited

/-- Wallet type string of deterministic wallets (`WalletTypeDeterministic`). -/
def WalletTypeDeterministic : String := "deterministic"

/-- Modelled from the spec: §4.3 — the address of derivation index `i` is a
fixed deterministic function of `(seed, i)` (in Go:
`cipher.GenerateDeterministicKeyPair` followed by the wallet's address
constructor). -/
def deriveAddress (seed : String) (i : Nat) : String :=
  "addr:" ++ seed ++ ":" ++ toString i

/-- Modelled from the spec: §4.3 — the private key of index `i` is a fixed
deterministic function of `(seed, i)`. -/
def deriveSecret (seed : String) (i : Nat) : String :=
  "sk:" ++ seed ++ ":" ++ toString i

/-- Plaintext address entry of derivation index `i`. -/
def mkEntry (seed : String) (i : Nat) : Entry :=
  { address := deriveAddress seed i, secret := some (deriveSecret seed i) }

/-- First `n` plaintext entries derived from a seed. -/
def generateEntries (seed : String) (n : Nat) : List Entry :=
  (List.range n).map (mkEntry seed)

/-- Go `w.clone()`: a deep copy.  On values this is the identity; object
identity is studied separately in the `Ptr` model. -/
def Wallet.clone (w : Wallet) : Wallet := w

/-- First address of a wallet, `w.Entries[0].Address.String()` in Go.  Total
(`""` on an entry-less wallet); every verified caller guards the access exactly
as the Go code does. -/
def Wallet.firstAddr (w : Wallet) : String :=
  match w.entries with
  | [] => ""
  | e :: _ => e.address

/-- Go `w.setLabel(label)`. -/
def Wallet.setLabel (w : Wallet) (l : String) : Wallet := { w with label := l }

/-- Go `w.setTimestamp(t)`. -/
def Wallet.setTimestamp (w : Wallet) (t : Nat) : Wallet := { w with timestamp := t }

/-- Modelled from the spec: §4.2 Lock — `Plain → Encrypted`; derives a key from
the password under the given scheme, moves the seed and every entry's private
key into the opaque blob, discards the plaintext fields; fails with
`AlreadyInState` if already encrypted. -/
def Wallet.Lock (w : Wallet) (password : String) (ct : String) : Except Err Wallet :=
  if w.encrypted then .error .walletEncrypted
  else .ok { w with
    encrypted := true
    cryptoType := ct
    seed := ""
    secrets := some { password := password, seed := w.seed, keys := w.entries.map (fun e => e.secret) }
    entries := w.entries.map (fun e => { e with secret := none }) }

/-- Modelled from the spec: §4.2 Unlock — `Encrypted → Plain`, returning a new
plaintext instance; fails with `AuthenticationFailure` on a wrong password. -/
def Wallet.Unlock (w : Wallet) (password : String) : Except Err Wallet :=
  if !w.encrypted then .error .walletNotEncrypted
  else match w.secrets with
    | none => .error .authFailure
    | some sec =>
      if password = sec.password then
        .ok { w with
          encrypted := false
          seed := sec.seed
          secrets := none
          entries := List.zipWith (fun (e : Entry) k => { e with secret := k }) w.entries sec.keys }
      else .error .authFailure

/-- Modelled from the spec: §4.2 GuardView — transient
`Encrypted → Plain → fn(wallet) → discard`; never mutates the source wallet
(it returns only the callback's result). -/
def Wallet.GuardView {α : Type} (w : Wallet) (password : String)
    (f : Wallet → Except Err α) : Except Err α :=
  (w.Unlock password).bind f

/-- Modelled from the spec: §4.2 GuardUpdate — transient
`Encrypted → Plain → fn(wallet) → Encrypted`, re-locked with the same password
and the wallet's own scheme; the new encrypted wallet replaces the caller's
reference only on full success. -/
def Wallet.GuardUpdate {α : Type} (w : Wallet) (password : String)
    (f : Wallet → Except Err (Wallet × α)) : Except Err (Wallet × α) :=
  (w.Unlock password).bind fun u =>
    (f u).bind fun p =>
      (p.1.Lock password w.cryptoType).map fun w2 => (w2, p.2)

/-- Modelled from the spec: wallet creation options (§4.1 CreateWallet,
§4.3). -/
structure Options : Type where
  coin : String
  label : String
  seed : String
  encrypt : Bool
  password : String
  cryptoType : String
  scanN : Nat
  generateN : Nat
deriving DecidableEq, Repr

/-- Modelled from the spec: §3 / §4.1 — `NewWallet` builds a deterministic
wallet from the options' seed with `max generateN 1` entries (at least one
entry always exists once created), locking it with the options' password and
scheme when `encrypt` is set. -/
def NewWallet (wltName : String) (o : Options) : Except Err Wallet :=
  let n := max o.generateN 1
  let w : Wallet :=
    { filename := wltName
      label := o.label
      coin := o.coin
      walletType := WalletTypeDeterministic
      cryptoType := o.cryptoType
      encrypted := false
      seed := o.seed
      secrets := none
      entries := generateEntries o.seed n
      timestamp := 0 }
  if o.encrypt then w.Lock o.password o.cryptoType else .ok w

/-- Modelled from the spec: §4.3 scan-ahead — starting after the `k` existing
entries, keep deriving successive addresses while the balance oracle reports a
nonzero balance for the most recently derived address, stopping at the first
address with none or when the configured maximum (`fuel`) is exhausted; returns
the final entry count. -/
def scanAheadCount (bg : String → Nat) (seed : String) : Nat → Nat → Nat
  | 0, k => k
  | fuel + 1, k => if bg (deriveAddress seed k) > 0 then scanAheadCount bg seed fuel (k + 1) else k

/-- Modelled from the spec: §4.1/§4.3 `NewWalletScanAhead` — build the wallet,
extend its entries by scan-ahead against the balance oracle, then encrypt if
requested. -/
def NewWalletScanAhead (wltName : String) (o : Options) (bg : String → Nat) :
    Except Err Wallet :=
  let n := max o.generateN 1
  let total := scanAheadCount bg o.seed o.scanN n
  let w : Wallet :=
    { filename := wltName
      label := o.label
      coin := o.coin
      walletType := WalletTypeDeterministic
      cryptoType := o.cryptoType
      encrypted := false
      seed := o.seed
      secrets := none
      entries := generateEntries o.seed total
      timestamp := 0 }
  if o.encrypt then w.Lock o.password o.cryptoType else .ok w

/-- Modelled from the spec: §4.1 NewAddresses / §4.3 — append `n` further
deterministically derived entries and return the new addresses.  Runs on a
plaintext wallet (directly, or inside a guard). -/
def Wallet.GenerateSkycoinAddresses (w : Wallet) (n : Nat) :
    Except Err (Wallet × List String) :=
  let k := w.entries.length
  let newE := (List.range n).map (fun i => mkEntry w.seed (k + i))
  .ok ({ w with entries := w.entries ++ newE }, newE.map (fun e => e.address))

/-- On-disk state: one file per wallet, keyed by filename. -/
abbrev Disk := List (String × Wallet)

/-- Modelled from the spec: §4.5 Save — write to a temporary location then
atomically replace the target file; `ok` is the environment's verdict on the
write, and a failed save leaves the previously durable version in place. -/
def Wallet.Save (w : Wallet) (ok : Bool) (d : Disk) : Except Err Disk :=
  if ok then .ok (mapSet d w.filename w) else .error .persistence

/-- Service state (`Service` in Go, part_001 lines 17-26): the wallet map, the
first-address index, the configured crypto type and the two feature flags.
`walletDirectory` is subsumed by the explicit `Disk` value. -/
structure Service : Type where
  wallets : List (String × Wallet)
  firstAddrIDMap : List (String × String)
  cryptoType : String
  enableWalletAPI : Bool
  enableSeedAPI : Bool
deriving DecidableEq, Repr

/-- Service configuration (`Config` in Go, part_001 lines 28-34). -/
structure Config : Type where
  cryptoType : String
  enableWalletAPI : Bool
  enableSeedAPI : Bool
deriving DecidableEq, Repr

/-- Modelled from the spec: §4.5 — `LoadWallets` parses every wallet file in
the directory; the disk is already a filename-keyed wallet map, so loading is
enumeration. -/
def LoadWallets (d : Disk) : List (String × Wallet) := d

/-- Duplicate-first-address check run at startup (`containsDuplicate`).
Modelled from the spec: §4.5 — reports whether two loaded wallets share a
first address; entry-less wallets are skipped (they are caught by the empty
check). -/
def containsDuplicate (wlts : List (String × Wallet)) : Bool :=
  go wlts []
where
  /-- Scans with the set of first addresses already seen. -/
  go : List (String × Wallet) → List String → Bool
    | [], _ => false
    | p :: rest, seen =>
      match p.2.entries with
      | [] => go rest seen
      | e :: _ => if seen.contains e.address then true else go rest (e.address :: seen)

/-- Empty-wallet check run at startup (`containsEmpty`).  Modelled from the
spec: §4.5 — reports whether some loaded wallet has zero entries. -/
def containsEmpty (wlts : List (String × Wallet)) : Bool :=
  wlts.any (fun p => p.2.entries.isEmpty)

/-- Go `serv.setWallets(w)` (part_001 lines 392-399): store the map and build
the first-address index from each wallet's first entry. -/
def Service.setWallets (s : Service) (wlts : List (String × Wallet)) : Service :=
  { s with
    wallets := wlts
    firstAddrIDMap := wlts.foldl (fun m p => mapSet m p.2.firstAddr p.1) s.firstAddrIDMap }

/-- Go `NewService(c)` (part_001 lines 37-79): with the wallet API disabled the
service is returned with empty maps and nothing is loaded; otherwise load the
disk, abort on a duplicate first address or an empty wallet, and install the
loaded wallets. -/
def NewService (c : Config) (d : Disk) : Except Err Service :=
  let serv : Service :=
    { wallets := []
      firstAddrIDMap := []
      cryptoType := c.cryptoType
      enableWalletAPI := c.enableWalletAPI
      enableSeedAPI := c.enableSeedAPI }
  if !serv.enableWalletAPI then .ok serv
  else
    let w := LoadWallets d
    if containsDuplicate w then .error .startupDuplicate
    else if containsEmpty w then .error .startupEmpty
    else .ok (serv.setWallets w)

/-- Modelled from the spec: wallets-collection `add` — rejects a second wallet
under the same filename, otherwise stores the wallet under its filename. -/
def walletsAdd (m : List (String × Wallet)) (w : Wallet) :
    Except Err (List (String × Wallet)) :=
  match mapGet m w.filename with
  | some _ => .error .nameConflict
  | none => .ok ((w.filename, w) :: m)

/-- Modelled from the spec: wallets-collection `set` — stores a deep copy of
the wallet under its filename, replacing any previous wallet there. -/
def walletsSet (m : List (String × Wallet)) (w : Wallet) : List (String × Wallet) :=
  mapSet m w.filename w.clone

/-- Go `serv.getWallet(wltID)` (part_001 lines 280-286): the clone of the
wallet of the given id, or `ErrWalletNotExist`. -/
def Service.getWallet (s : Service) (wltID : String) : Except Err Wallet :=
  match mapGet s.wallets wltID with
  | none => .error .walletNotExist
  | some w => .ok w.clone

/-- Modelled from the spec: `NewWalletFilename` — a generated wallet filename;
randomness is modelled as a probe counter. -/
def NewWalletFilename (n : Nat) : String := "wallet_" ++ toString n ++ ".wlt"

/-- Go `serv.generateUniqueWalletFilename()` (part_001 lines 128-138): probe
generated names against the existing ids until a free one is found; the fuel
bounds the probe loop. -/
def Service.generateUniqueWalletFilename (s : Service) : String :=
  go (s.wallets.length + 1) 0
where
  /-- Probing loop with fuel. -/
  go : Nat → Nat → String
    | 0, n => NewWalletFilename n
    | fuel + 1, n =>
      let name := NewWalletFilename n
      match mapGet s.wallets name with
      | none => name
      | some _ => go fuel (n + 1)

/-- Go `serv.loadWallet(wltName, options, bg)` (part_001 lines 97-126): select
the service crypto type when encrypting, build the wallet with scan-ahead,
reject a duplicate first address with `ErrSeedUsed`, add to the map, save to
disk — rolling the add back if the save fails — and finally record the
first-address index entry and return a clone. -/
def Service.loadWallet (s : Service) (d : Disk) (wltName : String) (o : Options)
    (bg : String → Nat) (saveOk : Bool) : Except Err Wallet × Service × Disk :=
  let o := if o.encrypt then { o with cryptoType := s.cryptoType } else o
  match NewWalletScanAhead wltName o bg with
  | .error e => (.error e, s, d)
  | .ok w =>
    match mapGet s.firstAddrIDMap w.firstAddr with
    | some _ => (.error .seedUsed, s, d)
    | none =>
      match walletsAdd s.wallets w with
      | .error e => (.error e, s, d)
      | .ok ws =>
        match w.Save saveOk d with
        | .error e => (.error e, { s with wallets := mapDel ws w.filename }, d)
        | .ok d2 =>
          (.ok w.clone,
            { s with
              wallets := ws
              firstAddrIDMap := mapSet s.firstAddrIDMap w.firstAddr w.filename },
            d2)

/-- Go `serv.CreateWallet(wltName, options, bg)` (part_001 lines 83-94). -/
def Service.CreateWallet (s : Service) (d : Disk) (wltName : String) (o : Options)
    (bg : String → Nat) (saveOk : Bool) : Except Err Wallet × Service × Disk :=
  if !s.enableWalletAPI then (.error .walletAPIDisabled, s, d)
  else
    let name := if wltName = "" then s.generateUniqueWalletFilename else wltName
    s.loadWallet d name o bg saveOk

/-- Go `serv.EncryptWallet(wltID, password)` (part_001 lines 141-169). -/
def Service.EncryptWallet (s : Service) (d : Disk) (wltID : String)
    (password : String) (saveOk : Bool) : Except Err Wallet × Service × Disk :=
  if !s.enableWalletAPI then (.error .walletAPIDisabled, s, d)
  else match s.getWallet wltID with
    | .error e => (.error e, s, d)
    | .ok w =>
      if w.encrypted then (.error .walletEncrypted, s, d)
      else match w.Lock password s.cryptoType with
        | .error e => (.error e, s, d)
        | .ok wl =>
          match wl.Save saveOk d with
          | .error e => (.error e, s, d)
          | .ok d2 => (.ok wl, { s with wallets := walletsSet s.wallets wl }, d2)

/-- Go `serv.DecryptWallet(wltID, password)` (part_001 lines 172-203). -/
def Service.DecryptWallet (s : Service) (d : Disk) (wltID : String)
    (password : String) (saveOk : Bool) : Except Err Wallet × Service × Disk :=
  if !s.enableWalletAPI then (.error .walletAPIDisabled, s, d)
  else match s.getWallet wltID with
    | .error e => (.error e, s, d)
    | .ok w =>
      if !w.encrypted then (.error .walletNotEncrypted, s, d)
      else match w.Unlock password with
        | .error e => (.error e, s, d)
        | .ok unlockWlt =>
          match unlockWlt.Save saveOk d with
          | .error e => (.error e, s, d)
          | .ok d2 =>
            (.ok unlockWlt, { s with wallets := walletsSet s.wallets unlockWlt }, d2)

/-- Go `serv.NewAddresses(wltID, password, num)` (part_001 lines 208-250). -/
def Service.NewAddresses (s : Service) (d : Disk) (wltID : String)
    (password : String) (num : Nat) (saveOk : Bool) :
    Except Err (List String) × Service × Disk :=
  if !s.enableWalletAPI then (.error .walletAPIDisabled, s, d)
  else match s.getWallet wltID with
    | .error e => (.error e, s, d)
    | .ok w =>
      let f := fun (wlt : Wallet) => wlt.GenerateSkycoinAddresses num
      let res : Except Err (Wallet × List String) :=
        if w.encrypted then w.GuardUpdate password f
        else if password ≠ "" then .error .walletNotEncrypted
        else f w
      match res with
      | .error e => (.error e, s, d)
      | .ok (w2, addrs) =>
        match w2.Save saveOk d with
        | .error e => (.error e, s, d)
        | .ok d2 => (.ok addrs, { s with wallets := walletsSet s.wallets w2 }, d2)

/-- Go `serv.GetWallet(wltID)` (part_001 lines 269-277). -/
def Service.GetWallet (s : Service) (d : Disk) (wltID : String) :
    Except Err Wallet × Service × Disk :=
  if !s.enableWalletAPI then (.error .walletAPIDisabled, s, d)
  else (s.getWallet wltID, s, d)

/-- Go `serv.GetWallets()` (part_001 lines 289-301). -/
def Service.GetWallets (s : Service) (d : Disk) :
    Except Err (List (String × Wallet)) × Service × Disk :=
  if !s.enableWalletAPI then (.error .walletAPIDisabled, s, d)
  else (.ok (s.wallets.map (fun p => (p.1, p.2.clone))), s, d)

/-- Go `serv.UpdateWalletLabel(wltID, label)` (part_001 lines 352-372). -/
def Service.UpdateWalletLabel (s : Service) (d : Disk) (wltID label : String)
    (saveOk : Bool) : Except Err Unit × Service × Disk :=
  if !s.enableWalletAPI then (.error .walletAPIDisabled, s, d)
  else match s.getWallet wltID with
    | .error e => (.error e, s, d)
    | .ok w =>
      let w2 := w.setLabel label
      match w2.Save saveOk d with
      | .error e => (.error e, s, d)
      | .ok d2 => (.ok (), { s with wallets := walletsSet s.wallets w2 }, d2)

/-- Go `serv.Remove(wltID)` (part_001 lines 375-390): delete the wallet's
first-address index entry when the wallet exists and has entries, then delete
the wallet from the map; always returns success. -/
def Service.Remove (s : Service) (d : Disk) (wltID : String) :
    Except Err Unit × Service × Disk :=
  if !s.enableWalletAPI then (.error .walletAPIDisabled, s, d)
  else
    let s1 :=
      match mapGet s.wallets wltID with
      | some wlt =>
        if wlt.entries.length > 0 then
          { s with firstAddrIDMap := mapDel s.firstAddrIDMap wlt.firstAddr }
        else s
      | none => s
    (.ok (), { s1 with wallets := mapDel s1.wallets wltID }, d)

/-- Go `serv.GetWalletSeed(wltID, password)` (part_001 lines 403-432). -/
def Service.GetWalletSeed (s : Service) (d : Disk) (wltID : String)
    (password : String) : Except Err String × Service × Disk :=
  if !s.enableWalletAPI then (.error .walletAPIDisabled, s, d)
  else if !s.enableSeedAPI then (.error .seedAPIDisabled, s, d)
  else match s.getWallet wltID with
    | .error e => (.error e, s, d)
    | .ok w =>
      if !w.encrypted then (.error .walletNotEncrypted, s, d)
      else match w.GuardView password (fun wlt => .ok wlt.seed) with
        | .error e => (.error e, s, d)
        | .ok seed => (.ok seed, s, d)

/-- Transaction creation parameters (`CreateTransactionParams`): the wallet id
and password of `params.Wallet`, the requested amount, and a `valid` bit
standing for the outcome of the remaining parameter validation.  Modelled from
the spec: §3 — "wallet id, optional password, spend policy; validated before
any mutation" (the spend-policy fields beyond the amount are not described). -/
structure CreateTransactionParams : Type where
  walletID : String
  password : String
  amount : Nat
  valid : Bool
deriving DecidableEq, Repr

/-- Go `params.Validate()`.  Modelled from the spec: §4.1 — "validates params
first"; the detailed checks are abstracted into the `valid` bit. -/
def CreateTransactionParams.Validate (p : CreateTransactionParams) : Except Err Unit :=
  if p.valid then .ok () else .error .validation

/-- A signed transaction: the consumed output addresses and their signatures. -/
structure Transaction : Type where
  inputs : List String
  sigs : List String
deriving DecidableEq, Repr

/-- Modelled from the spec: §4.4 Transaction Builder — a pure, deterministic
function of its inputs: select the wallet-owned outputs, fail with `Validation`
if they cannot cover the requested amount, otherwise sign each consumed input
with its owning entry's private key and return the transaction plus the
consumed outputs. -/
def Wallet.CreateTransactionW (w : Wallet) (p : CreateTransactionParams)
    (auxs : List (String × Nat)) (headTime : Nat) :
    Except Err (Transaction × List (String × Nat)) :=
  let available := auxs.filter (fun a => w.entries.any (fun e => e.address = a.1))
  let total := (available.map (fun a => a.2)).sum
  if total < p.amount then .error .validation
  else
    .ok
      ({ inputs := available.map (fun a => a.1)
         sigs := available.map (fun a => "sig:" ++ a.1 ++ ":" ++ toString headTime) },
        available)

/-- Go `serv.CreateTransaction(params, auxs, headTime)` (part_001 lines
305-349). -/
def Service.CreateTransaction (s : Service) (d : Disk)
    (params : CreateTransactionParams) (auxs : List (String × Nat)) (headTime : Nat) :
    Except Err (Transaction × List (String × Nat)) × Service × Disk :=
  if !s.enableWalletAPI then (.error .walletAPIDisabled, s, d)
  else match params.Validate with
    | .error e => (.error e, s, d)
    | .ok _ =>
      match s.getWallet params.walletID with
      | .error e => (.error e, s, d)
      | .ok w =>
        if w.encrypted ∧ params.password = "" then (.error .missingPassword, s, d)
        else if ¬w.encrypted ∧ params.password ≠ "" then (.error .walletNotEncrypted, s, d)
        else
          let res :=
            if w.encrypted then
              w.GuardView params.password (fun wlt => wlt.CreateTransactionW params auxs headTime)
            else w.CreateTransactionW params auxs headTime
          match res with
          | .error e => (.error e, s, d)
          | .ok r => (.ok r, s, d)

/-- Go `serv.RecoverWallet(wltName, seed, password)` (part_001 lines 536-594). -/
def Service.RecoverWallet (s : Service) (d : Disk) (wltName seed : String)
    (password : String) (saveOk : Bool) : Except Err Wallet × Service × Disk :=
  if !s.enableWalletAPI then (.error .walletAPIDisabled, s, d)
  else match s.getWallet wltName with
    | .error e => (.error e, s, d)
    | .ok w =>
      if !w.encrypted then (.error .walletNotEncrypted, s, d)
      else if w.walletType ≠ WalletTypeDeterministic then (.error .walletNotDeterministic, s, d)
      else
        let addr := deriveAddress seed 0
        if addr ≠ w.firstAddr then (.error .recoverSeedWrong, s, d)
        else
          match NewWallet wltName
              { coin := w.coin
                label := w.label
                seed := seed
                encrypt := password ≠ ""
                password := password
                cryptoType := w.cryptoType
                scanN := 0
                generateN := w.entries.length } with
          | .error e => (.error e, s, d)
          | .ok w2a =>
            let w2 := w2a.setTimestamp w.timestamp
            match w2.Save saveOk d with
            | .error e => (.error e, s, d)
            | .ok d2 => (.ok w2.clone, { s with wallets := walletsSet s.wallets w2 }, d2)

/-!
Pointer model.  The value model above cannot express C9's content — that the
wallet object handed to a caller is a different object from the one held in the
store, so that mutation through the returned reference cannot reach the store.
The `Ptr` namespace refines the same Go lines with an explicit heap: a wallet
variable is a reference into the heap, `clone` allocates a fresh object, and
the store maps ids to references.
-/

namespace Ptr

/-- Heap of wallet objects: allocated cells and the next fresh reference. -/
structure Heap : Type where
  mem : List (Nat × Wallet)
  nxt : Nat
deriving DecidableEq, Repr

/-- Allocate a new wallet object; returns its reference. -/
def Heap.alloc (h : Heap) (w : Wallet) : Nat × Heap :=
  (h.nxt, { mem := (h.nxt, w) :: h.mem, nxt := h.nxt + 1 })

/-- Read a wallet object (Go pointer dereference; total, with a default for a
dangling reference, which no verified execution produces). -/
def Heap.readD (h : Heap) (r : Nat) : Wallet :=
  (mapGet h.mem r).getD default

/-- Overwrite a wallet object in place (Go mutation through a pointer). -/
def Heap.write (h : Heap) (r : Nat) (w : Wallet) : Heap :=
  { h with mem := mapSet h.mem r w }

/-- Go `w.clone()` under the pointer model: allocate a fresh object holding a
copy of the referenced wallet. -/
def Heap.cloneRef (h : Heap) (r : Nat) : Nat × Heap :=
  h.alloc (h.readD r)

/-- Service state under the pointer model: the store maps ids to references. -/
structure PService : Type where
  wallets : List (String × Nat)
  firstAddrIDMap : List (String × String)
  cryptoType : String
  enableWalletAPI : Bool
  enableSeedAPI : Bool
deriving DecidableEq, Repr

/-- References held by the store. -/
def PService.refs (s : PService) : List Nat := s.wallets.map Prod.snd

/-- Caller-visible view of the store: each id with the wallet value its
reference currently holds. -/
def view (s : PService) (h : Heap) : List (String × Wallet) :=
  s.wallets.map (fun p => (p.1, h.readD p.2))

/-- Go `serv.getWallet(wltID)` (part_001 lines 280-286) under the pointer
model: the returned wallet is a fresh clone of the stored object. -/
def PService.getWallet (s : PService) (h : Heap) (wltID : String) :
    Except Err Nat × Heap :=
  match mapGet s.wallets wltID with
  | none => (.error .walletNotExist, h)
  | some r =>
    let c := h.cloneRef r
    (.ok c.1, c.2)

/-- Go `serv.GetWallet(wltID)` (part_001 lines 269-277) under the pointer
model. -/
def PService.GetWallet (s : PService) (h : Heap) (wltID : String) :
    Except Err Nat × PService × Heap :=
  if !s.enableWalletAPI then (.error .walletAPIDisabled, s, h)
  else
    let g := s.getWallet h wltID
    (g.1, s, g.2)

/-- Go `serv.GetWallets()` (part_001 lines 289-301) under the pointer model:
every returned wallet is a fresh clone. -/
def PService.GetWallets (s : PService) (h : Heap) :
    Except Err (List (String × Nat)) × PService × Heap :=
  if !s.enableWalletAPI then (.error .walletAPIDisabled, s, h)
  else
    let step := fun (acc : List (String × Nat) × Heap) (p : String × Nat) =>
      let c := acc.2.cloneRef p.2
      (acc.1 ++ [(p.1, c.1)], c.2)
    let r := s.wallets.foldl step ([], h)
    (.ok r.1, s, r.2)

/-- Go `serv.EncryptWallet(wltID, password)` (part_001 lines 141-169) under the
pointer model: lock mutates the clone in place, `wallets.set` stores a further
clone of it, and the first clone is returned to the caller. -/
def PService.EncryptWallet (s : PService) (h : Heap) (d : Disk) (wltID : String)
    (password : String) (saveOk : Bool) :
    Except Err Nat × PService × Heap × Disk :=
  if !s.enableWalletAPI then (.error .walletAPIDisabled, s, h, d)
  else match mapGet s.wallets wltID with
    | none => (.error .walletNotExist, s, h, d)
    | some r0 =>
      let c := h.cloneRef r0
      let r := c.1
      let h1 := c.2
      let w := h1.readD r
      if w.encrypted then (.error .walletEncrypted, s, h1, d)
      else match w.Lock password s.cryptoType with
        | .error e => (.error e, s, h1, d)
        | .ok wl =>
          let h2 := h1.write r wl
          match wl.Save saveOk d with
          | .error e => (.error e, s, h2, d)
          | .ok d2 =>
            let c2 := h2.cloneRef r
            let h3 := c2.2
            (.ok r, { s with wallets := mapSet s.wallets wltID c2.1 }, h3, d2)

/-- Go `serv.DecryptWallet(wltID, password)` (part_001 lines 172-203) under the
pointer model: `Unlock` returns a new object, `wallets.set` stores a clone of
it, and the unlock object itself is returned to the caller. -/
def PService.DecryptWallet (s : PService) (h : Heap) (d : Disk) (wltID : String)
    (password : String) (saveOk : Bool) :
    Except Err Nat × PService × Heap × Disk :=
  if !s.enableWalletAPI then (.error .walletAPIDisabled, s, h, d)
  else match mapGet s.wallets wltID with
    | none => (.error .walletNotExist, s, h, d)
    | some r0 =>
      let c := h.cloneRef r0
      let r := c.1
      let h1 := c.2
      let w := h1.readD r
      if !w.encrypted then (.error .walletNotEncrypted, s, h1, d)
      else match w.Unlock password with
        | .error e => (.error e, s, h1, d)
        | .ok unlockWlt =>
          let a := h1.alloc unlockWlt
          let r1 := a.1
          let h2 := a.2
          match unlockWlt.Save saveOk d with
          | .error e => (.error e, s, h2, d)
          | .ok d2 =>
            let c2 := h2.cloneRef r1
            let h3 := c2.2
            (.ok r1, { s with wallets := mapSet s.wallets wltID c2.1 }, h3, d2)

/-- Go `serv.loadWallet` inside `CreateWallet` (part_001 lines 83-126) under
the pointer model: the freshly built wallet object itself is added to the map,
and the caller receives a clone of it. -/
def PService.CreateWallet (s : PService) (h : Heap) (d : Disk) (wltName : String)
    (o : Options) (bg : String → Nat) (saveOk : Bool) :
    Except Err Nat × PService × Heap × Disk :=
  if !s.enableWalletAPI then (.error .walletAPIDisabled, s, h, d)
  else
    let o := if o.encrypt then { o with cryptoType := s.cryptoType } else o
    match NewWalletScanAhead wltName o bg with
    | .error e => (.error e, s, h, d)
    | .ok w =>
      let a := h.alloc w
      let r := a.1
      let h1 := a.2
      match mapGet s.firstAddrIDMap w.firstAddr with
      | some _ => (.error .seedUsed, s, h1, d)
      | none =>
        match mapGet s.wallets w.filename with
        | some _ => (.error .nameConflict, s, h1, d)
        | none =>
          let s1 := { s with wallets := (w.filename, r) :: s.wallets }
          match w.Save saveOk d with
          | .error e => (.error e, { s1 with wallets := mapDel s1.wallets w.filename }, h1, d)
          | .ok d2 =>
            let s2 := { s1 with firstAddrIDMap := mapSet s1.firstAddrIDMap w.firstAddr w.filename }
            let c := h1.cloneRef r
            (.ok c.1, s2, c.2, d2)

/-- Go `serv.RecoverWallet(wltName, seed, password)` (part_001 lines 536-594)
under the pointer model: the rebuilt wallet is a new object, `wallets.set`
stores a clone of it, and the caller receives a further clone. -/
def PService.RecoverWallet (s : PService) (h : Heap) (d : Disk)
    (wltName seed : String) (password : String) (saveOk : Bool) :
    Except Err Nat × PService × Heap × Disk :=
  if !s.enableWalletAPI then (.error .walletAPIDisabled, s, h, d)
  else match mapGet s.wallets wltName with
    | none => (.error .walletNotExist, s, h, d)
    | some r0 =>
      let c := h.cloneRef r0
      let r := c.1
      let h1 := c.2
      let w := h1.readD r
      if !w.encrypted then (.error .walletNotEncrypted, s, h1, d)
      else if w.walletType ≠ WalletTypeDeterministic then (.error .walletNotDeterministic, s, h1, d)
      else if deriveAddress seed 0 ≠ w.firstAddr then (.error .recoverSeedWrong, s, h1, d)
      else
        match NewWallet wltName
            { coin := w.coin
              label := w.label
              seed := seed
              encrypt := password ≠ ""
              password := password
              cryptoType := w.cryptoType
              scanN := 0
              generateN := w.entries.length } with
        | .error e => (.error e, s, h1, d)
        | .ok w2a =>
          let a := h1.alloc (w2a.setTimestamp w.timestamp)
          let r2 := a.1
          let h2 := a.2
          let w2 := h2.readD r2
          match w2.Save saveOk d with
          | .error e => (.error e, s, h2, d)
          | .ok d2 =>
            let c2 := h2.cloneRef r2
            let h3 := c2.2
            let s2 := { s with wallets := mapSet s.wallets wltName c2.1 }
            let c3 := h3.cloneRef r2
            (.ok c3.1, s2, c3.2, d2)

end Ptr

/-! Association-list lemmas. -/

theorem mapGet_mapDel_self {κ α : Type} [DecidableEq κ] (m : List (κ × α)) (k : κ) :
    mapGet (mapDel m k) k = none := by
  induction m with
  | nil => rfl
  | cons p rest ih =>
    by_cases h : p.1 = k
    · simpa [mapDel, h] using ih
    · simpa [mapDel, mapGet, h] using ih

theorem mapGet_mapDel_ne {κ α : Type} [DecidableEq κ] (m : List (κ × α)) (k k' : κ)
    (h : k' ≠ k) : mapGet (mapDel m k) k' = mapGet m k' := by
  induction m with
  | nil => rfl
  | cons p rest ih =>
    by_cases hp : p.1 = k
    · have hp' : ¬p.1 = k' := by rw [hp]; exact fun he => h he.symm
      have hd : mapDel (p :: rest) k = mapDel rest k := by simp [mapDel, hp]
      rw [hd, ih]
      simp [mapGet, hp']
    · have hd : mapDel (p :: rest) k = p :: mapDel rest k := by simp [mapDel, hp]
      by_cases hk : p.1 = k'
      · rw [hd]; simp [mapGet, hk]
      · rw [hd]; simp [mapGet, hk, ih]

theorem mapGet_mapSet_self {κ α : Type} [DecidableEq κ] (m : List (κ × α)) (k : κ) (v : α) :
    mapGet (mapSet m k v) k = some v := by
  simp [mapSet, mapGet]

theorem mapGet_mapSet_ne {κ α : Type} [DecidableEq κ] (m : List (κ × α)) (k k' : κ) (v : α)
    (h : k' ≠ k) : mapGet (mapSet m k v) k' = mapGet m k' := by
  have : k ≠ k' := fun he => h he.symm
  simp [mapSet, mapGet, this, mapGet_mapDel_ne m k k' h]

theorem mapGet_eq_none_iff {κ α : Type} [DecidableEq κ] (m : List (κ × α)) (k : κ) :
    mapGet m k = none ↔ ∀ p ∈ m, p.1 ≠ k := by
  induction m with
  | nil => simp [mapGet]
  | cons p rest ih =>
    by_cases h : p.1 = k
    · simp [mapGet, h]
    · simp [mapGet, h, ih]

theorem mapDel_of_mapGet_none {κ α : Type} [DecidableEq κ] (m : List (κ × α)) (k : κ)
    (h : mapGet m k = none) : mapDel m k = m := by
  induction m with
  | nil => rfl
  | cons p rest ih =>
    rw [mapGet_eq_none_iff] at h
    have hp : p.1 ≠ k := h p (by simp)
    have hr : mapDel rest k = rest := by
      apply ih
      rw [mapGet_eq_none_iff]
      exact fun q hq => h q (by simp [hq])
    simp [mapDel, hp] at hr ⊢
    exact hr

theorem mem_mapDel {κ α : Type} [DecidableEq κ] (m : List (κ × α)) (k : κ) (p : κ × α) :
    p ∈ mapDel m k ↔ p ∈ m ∧ p.1 ≠ k := by
  simp [mapDel]

theorem mem_mapSet {κ α : Type} [DecidableEq κ] (m : List (κ × α)) (k : κ) (v : α) (p : κ × α) :
    p ∈ mapSet m k v ↔ p = (k, v) ∨ (p ∈ m ∧ p.1 ≠ k) := by
  simp [mapSet, mem_mapDel]

theorem keys_nodup_mapDel {κ α : Type} [DecidableEq κ] (m : List (κ × α)) (k : κ)
    (h : (m.map Prod.fst).Nodup) : ((mapDel m k).map Prod.fst).Nodup := by
  exact h.sublist (List.Sublist.map Prod.fst (List.filter_sublist m))

theorem keys_nodup_mapSet {κ α : Type} [DecidableEq κ] (m : List (κ × α)) (k : κ) (v : α)
    (h : (m.map Prod.fst).Nodup) : ((mapSet m k v).map Prod.fst).Nodup := by
  refine List.nodup_cons.mpr ⟨?_, keys_nodup_mapDel m k h⟩
  intro hk
  rcases List.mem_map.mp hk with ⟨p, hp, hfst⟩
  exact ((mem_mapDel m k p).mp hp).2 hfst

theorem mapGet_eq_none_of_not_mem_keys {κ α : Type} [DecidableEq κ]
    (m : List (κ × α)) (k : κ) (h : k ∉ m.map Prod.fst) : mapGet m k = none := by
  rw [mapGet_eq_none_iff]
  intro p hp he
  exact h (List.mem_map.mpr ⟨p, hp, he⟩)

theorem mem_keys_of_mapGet_eq_some {κ α : Type} [DecidableEq κ]
    (m : List (κ × α)) (k : κ) (v : α) (h : mapGet m k = some v) : k ∈ m.map Prod.fst := by
  by_contra hk
  rw [mapGet_eq_none_of_not_mem_keys m k hk] at h
  cases h

theorem mem_of_mapGet_eq_some {κ α : Type} [DecidableEq κ]
    (m : List (κ × α)) (k : κ) (v : α) (h : mapGet m k = some v) : (k, v) ∈ m := by
  induction m with
  | nil => cases h
  | cons p rest ih =>
    by_cases hp : p.1 = k
    · have h2 : p.2 = v := by
        simp only [mapGet, hp, if_pos] at h
        injection h
      have he : (k, v) = p := by rw [← hp, ← h2]
      rw [he]
      exact List.mem_cons_self p rest
    · simp only [mapGet, hp, if_neg, not_false_iff] at h
      exact List.mem_cons_of_mem p (ih h)

theorem mapGet_eq_some_of_mem_nodup {κ α : Type} [DecidableEq κ]
    (m : List (κ × α)) (p : κ × α) (hnd : (m.map Prod.fst).Nodup) (hm : p ∈ m) :
    mapGet m p.1 = some p.2 := by
  induction m with
  | nil => cases hm
  | cons q rest ih =>
    rcases List.mem_cons.mp hm with he | hr
    · subst he
      simp [mapGet]
    · have hq : q.1 ≠ p.1 := by
        intro he
        have : q.1 ∉ rest.map Prod.fst := (List.nodup_cons.mp hnd).1
        exact this (List.mem_map.mpr ⟨p, hr, he.symm⟩)
      simp only [mapGet, hq, if_neg, not_false_iff]
      exact ih (List.nodup_cons.mp hnd).2 hr

theorem eq_of_fst_eq_of_keys_nodup {κ α : Type} [DecidableEq κ]
    (m : List (κ × α)) (p q : κ × α) (hnd : (m.map Prod.fst).Nodup)
    (hp : p ∈ m) (hq : q ∈ m) (h : p.1 = q.1) : p = q := by
  have h1 := mapGet_eq_some_of_mem_nodup m p hnd hp
  have h2 := mapGet_eq_some_of_mem_nodup m q hnd hq
  rw [h] at h1
  rw [h1] at h2
  have h3 : p.2 = q.2 := by injection h2
  calc p = (p.1, p.2) := rfl
    _ = (q.1, q.2) := by rw [h, h3]
    _ = q := rfl

/-! Facts about wallet construction. -/

theorem scanAheadCount_ge (bg : String → Nat) (seed : String) :
    ∀ fuel k, k ≤ scanAheadCount bg seed fuel k := by
  intro fuel
  induction fuel with
  | zero => intro k; exact Nat.le_refl k
  | succ f ih =>
    intro k
    simp only [scanAheadCount]
    split
    · exact Nat.le_trans (Nat.le_succ k) (ih (k + 1))
    · exact Nat.le_refl k

theorem generateEntries_length (seed : String) (n : Nat) :
    (generateEntries seed n).length = n := by
  simp [generateEntries]

theorem generateEntries_cons (seed : String) (n : Nat) (h : n ≠ 0) :
    ∃ rest, generateEntries seed n = mkEntry seed 0 :: rest := by
  obtain ⟨m, rfl⟩ := Nat.exists_eq_succ_of_ne_zero h
  exact ⟨((List.range m).map Nat.succ).map (mkEntry seed), by
    simp [generateEntries, List.range_succ_eq_map]⟩

theorem generateEntries_ne_nil (seed : String) (n : Nat) (h : n ≠ 0) :
    generateEntries seed n ≠ [] := by
  obtain ⟨rest, hr⟩ := generateEntries_cons seed n h
  simp [hr]

theorem newWalletScanAhead_ok (name : String) (o : Options) (bg : String → Nat)
    (w : Wallet) (hw : NewWalletScanAhead name o bg = .ok w) :
    w.filename = name ∧ w.entries ≠ [] := by
  have htot : scanAheadCount bg o.seed o.scanN (max o.generateN 1) ≠ 0 := by
    have h1 := scanAheadCount_ge bg o.seed o.scanN (max o.generateN 1)
    have h2 : 1 ≤ max o.generateN 1 := Nat.le_max_right _ _
    omega
  by_cases he : o.encrypt
  · simp only [NewWalletScanAhead, he, if_pos, Wallet.Lock] at hw
    simp only [if_neg, Bool.false_eq_true, not_false_iff] at hw
    injection hw with hw
    subst hw
    refine ⟨rfl, fun hc => ?_⟩
    have hlen := congrArg List.length hc
    simp only [List.length_map, generateEntries_length, List.length_nil] at hlen
    exact htot hlen
  · simp only [NewWalletScanAhead, he, if_neg, Bool.false_eq_true, not_false_iff] at hw
    injection hw with hw
    subst hw
    exact ⟨rfl, generateEntries_ne_nil _ _ htot⟩

theorem newWallet_not_error (name : String) (o : Options) (e : Err) :
    NewWallet name o ≠ .error e := by
  by_cases he : o.encrypt <;> simp [NewWallet, he, Wallet.Lock]

theorem firstAddr_map_entries (w : Wallet) (f : Entry → Entry)
    (hf : ∀ e, (f e).address = e.address) :
    Wallet.firstAddr { w with entries := w.entries.map f } = w.firstAddr := by
  cases h : w.entries with
  | nil => simp [Wallet.firstAddr, h]
  | cons e rest => simp [Wallet.firstAddr, h, hf]

theorem newWallet_props (name : String) (o : Options) (w : Wallet)
    (hw : NewWallet name o = .ok w) :
    w.filename = name ∧ w.entries.length = max o.generateN 1 ∧
    w.firstAddr = deriveAddress o.seed 0 ∧ w.encrypted = o.encrypt ∧
    w.timestamp = 0 ∧ w.walletType = WalletTypeDeterministic := by
  have hn : max o.generateN 1 ≠ 0 := by
    have := Nat.le_max_right o.generateN 1
    omega
  obtain ⟨rest, hr⟩ := generateEntries_cons o.seed (max o.generateN 1) hn
  by_cases he : o.encrypt
  · simp only [NewWallet, he, if_pos, Wallet.Lock] at hw
    simp only [if_neg, Bool.false_eq_true, not_false_iff] at hw
    injection hw with hw
    subst hw
    refine ⟨rfl, ?_, ?_, by simp [he], rfl, rfl⟩
    · simp [generateEntries_length]
    · simp only [Wallet.firstAddr, hr, List.map_cons]
      rfl
  · simp only [NewWallet, he, if_neg, Bool.false_eq_true, not_false_iff] at hw
    injection hw with hw
    subst hw
    refine ⟨rfl, generateEntries_length _ _, ?_, by simp [he], rfl, rfl⟩
    simp only [Wallet.firstAddr, hr]
    rfl

/-! Facts about the startup integrity checks. -/

theorem containsEmpty_false_iff (wlts : List (String × Wallet)) :
    containsEmpty wlts = false ↔ ∀ p ∈ wlts, p.2.entries ≠ [] := by
  simp [containsEmpty, List.any_eq_true, List.isEmpty_iff]

theorem containsDuplicate_go_false (wlts : List (String × Wallet)) :
    ∀ seen, containsDuplicate.go wlts seen = false →
      (∀ p ∈ wlts, p.2.entries ≠ []) →
      ((wlts.map (fun p => p.2.firstAddr)).Nodup ∧
        ∀ p ∈ wlts, p.2.firstAddr ∉ seen) := by
  induction wlts with
  | nil => intro seen _ _; simp
  | cons p rest ih =>
    intro seen hgo hne
    cases hent : p.2.entries with
    | nil => exact absurd hent (hne p (by simp))
    | cons e tl =>
      simp only [containsDuplicate.go, hent] at hgo
      cases hcont : seen.contains e.address with
      | true =>
        rw [hcont] at hgo
        simp at hgo
      | false =>
      rw [hcont] at hgo
      have hgo2 : containsDuplicate.go rest (e.address :: seen) = false := by
        simpa using hgo
      have hrest := ih (e.address :: seen) hgo2 (fun q hq => hne q (by simp [hq]))
      have hfa : p.2.firstAddr = e.address := by simp [Wallet.firstAddr, hent]
      have hnotmem : e.address ∉ seen := by
        intro hm
        rw [List.contains_eq_any_beq] at hcont
        have : seen.any (e.address == ·) = true :=
          List.any_eq_true.mpr ⟨e.address, hm, by simp⟩
        rw [this] at hcont
        cases hcont
      constructor
      · refine List.nodup_cons.mpr ⟨?_, hrest.1⟩
        intro hm
        rcases List.mem_map.mp hm with ⟨q, hq, hfq⟩
        have hfq2 : q.2.firstAddr = p.2.firstAddr := hfq
        apply hrest.2 q hq
        rw [hfq2, hfa]
        exact List.mem_cons_self _ _
      · intro q hq
        rcases List.mem_cons.mp hq with he2 | hr2
        · subst he2; rw [hfa]; exact hnotmem
        · have := hrest.2 q hr2
          intro hm
          exact this (by simp [hm])

theorem containsDuplicate_false (wlts : List (String × Wallet))
    (h : containsDuplicate wlts = false) (hne : ∀ p ∈ wlts, p.2.entries ≠ []) :
    (wlts.map (fun p => p.2.firstAddr)).Nodup :=
  (containsDuplicate_go_false wlts [] h hne).1

/-! Facts about the index built by `setWallets`. -/

theorem buildIdx_get_of_not_mem (wlts : List (String × Wallet)) :
    ∀ (acc : List (String × String)) (k : String),
      (∀ p ∈ wlts, p.2.firstAddr ≠ k) →
      mapGet (wlts.foldl (fun m p => mapSet m p.2.firstAddr p.1) acc) k = mapGet acc k := by
  induction wlts with
  | nil => intro acc k _; rfl
  | cons q rest ih =>
    intro acc k hk
    simp only [List.foldl_cons]
    rw [ih _ k (fun p hp => hk p (by simp [hp]))]
    exact mapGet_mapSet_ne _ _ _ _ (fun he => hk q (by simp) he.symm)

theorem buildIdx_get (wlts : List (String × Wallet)) :
    ∀ (acc : List (String × String)),
      ((wlts.map (fun p => p.2.firstAddr)).Nodup) →
      ∀ p ∈ wlts,
        mapGet (wlts.foldl (fun m p => mapSet m p.2.firstAddr p.1) acc) p.2.firstAddr =
          some p.1 := by
  induction wlts with
  | nil => intro acc _ p hp; cases hp
  | cons q rest ih =>
    intro acc hnd p hp
    have hq : q.2.firstAddr ∉ rest.map (fun p => p.2.firstAddr) := (List.nodup_cons.mp hnd).1
    rcases List.mem_cons.mp hp with he | hr
    · subst he
      simp only [List.foldl_cons]
      rw [buildIdx_get_of_not_mem rest _ p.2.firstAddr
        (fun r hr2 he2 => hq (he2 ▸ List.mem_map.mpr ⟨r, hr2, rfl⟩))]
      exact mapGet_mapSet_self _ _ _
    · simp only [List.foldl_cons]
      exact ih _ (List.nodup_cons.mp hnd).2 p hr

theorem buildIdx_keys_nodup (wlts : List (String × Wallet)) :
    ∀ (acc : List (String × String)), (acc.map Prod.fst).Nodup →
      (((wlts.foldl (fun m p => mapSet m p.2.firstAddr p.1) acc)).map Prod.fst).Nodup := by
  induction wlts with
  | nil => intro acc h; exact h
  | cons q rest ih =>
    intro acc h
    simp only [List.foldl_cons]
    exact ih _ (keys_nodup_mapSet _ _ _ h)

theorem buildIdx_sound (wlts : List (String × Wallet)) :
    ∀ (acc : List (String × String)) (q : String × String),
      q ∈ wlts.foldl (fun m p => mapSet m p.2.firstAddr p.1) acc →
      q ∈ acc ∨ ∃ p, p ∈ wlts ∧ q = (p.2.firstAddr, p.1) := by
  induction wlts with
  | nil => intro acc q h; exact Or.inl h
  | cons w rest ih =>
    intro acc q h
    simp only [List.foldl_cons] at h
    rcases ih _ q h with hacc | ⟨p, hp, he⟩
    · rcases (mem_mapSet _ _ _ _).mp hacc with he | ⟨hm, _⟩
      · exact Or.inr ⟨w, by simp, he⟩
      · exact Or.inl hm
    · exact Or.inr ⟨p, by simp [hp], he⟩

/-! Service-store invariant. -/

/-- Well-formedness of a Service store: unique wallet ids, unique index keys,
no entry-less wallet, the first-address index maps each stored wallet's first
address to that wallet's id, and every index entry comes from a stored
wallet. -/
structure GoodService (s : Service) : Prop where
  walletKeysNodup : (s.wallets.map Prod.fst).Nodup
  idxKeysNodup : (s.firstAddrIDMap.map Prod.fst).Nodup
  entriesNonempty : ∀ p ∈ s.wallets, p.2.entries ≠ []
  idxStores : ∀ p ∈ s.wallets, mapGet s.firstAddrIDMap p.2.firstAddr = some p.1
  idxSound : ∀ q ∈ s.firstAddrIDMap,
    ∃ p, p ∈ s.wallets ∧ p.1 = q.2 ∧ p.2.firstAddr = q.1

theorem setTimestamp_filename (w : Wallet) (t : Nat) :
    (w.setTimestamp t).filename = w.filename := rfl

theorem setTimestamp_firstAddr (w : Wallet) (t : Nat) :
    (w.setTimestamp t).firstAddr = w.firstAddr := rfl

theorem setTimestamp_entries (w : Wallet) (t : Nat) :
    (w.setTimestamp t).entries = w.entries := rfl

/-- Outcome analysis of `loadWallet`: every failure leaves the service and the
disk exactly as they were (including the save-failure path, whose in-memory
add is rolled back), and success adds the new wallet to the map, the index and
the disk. -/
theorem loadWallet_spec (s : Service) (d : Disk) (name : String) (o : Options)
    (bg : String → Nat) (saveOk : Bool) :
    (∃ e, s.loadWallet d name o bg saveOk = (.error e, s, d)) ∨
    (∃ w, s.loadWallet d name o bg saveOk =
        (.ok w,
          { s with
            wallets := (w.filename, w) :: s.wallets
            firstAddrIDMap := mapSet s.firstAddrIDMap w.firstAddr w.filename },
          mapSet d w.filename w) ∧
      w.entries ≠ [] ∧
      mapGet s.wallets w.filename = none ∧
      mapGet s.firstAddrIDMap w.firstAddr = none ∧ saveOk = true) := by
  cases hscan : NewWalletScanAhead name
      (if o.encrypt then { o with cryptoType := s.cryptoType } else o) bg with
  | error e =>
    left
    exact ⟨e, by simp only [Service.loadWallet, hscan]⟩
  | ok w =>
    obtain ⟨hfn, hne⟩ := newWalletScanAhead_ok _ _ _ _ hscan
    cases hidx : mapGet s.firstAddrIDMap w.firstAddr with
    | some id0 =>
      left
      exact ⟨.seedUsed, by simp only [Service.loadWallet, hscan, hidx]⟩
    | none =>
      cases hadd : mapGet s.wallets w.filename with
      | some w0 =>
        left
        exact ⟨.nameConflict, by simp only [Service.loadWallet, hscan, hidx, walletsAdd, hadd]⟩
      | none =>
        cases saveOk with
        | false =>
          left
          refine ⟨.persistence, ?_⟩
          have hroll : mapDel ((w.filename, w) :: s.wallets) w.filename = s.wallets := by
            have h1 : mapDel ((w.filename, w) :: s.wallets) w.filename =
                mapDel s.wallets w.filename := by
              simp [mapDel]
            rw [h1, mapDel_of_mapGet_none _ _ hadd]
          simp only [Service.loadWallet, hscan, hidx, walletsAdd, hadd, Wallet.Save,
            Bool.false_eq_true, if_neg, not_false_iff, hroll]
        | true =>
          right
          refine ⟨w, ?_, hne, hadd, hidx, rfl⟩
          simp only [Service.loadWallet, hscan, hidx, walletsAdd, hadd, Wallet.Save,
            if_pos, Wallet.clone]

/-- Outcome analysis of `CreateWallet`, inherited from `loadWallet_spec`. -/
theorem createWallet_spec (s : Service) (d : Disk) (name : String) (o : Options)
    (bg : String → Nat) (saveOk : Bool) :
    (∃ e, s.CreateWallet d name o bg saveOk = (.error e, s, d)) ∨
    (∃ w, s.CreateWallet d name o bg saveOk =
        (.ok w,
          { s with
            wallets := (w.filename, w) :: s.wallets
            firstAddrIDMap := mapSet s.firstAddrIDMap w.firstAddr w.filename },
          mapSet d w.filename w) ∧
      w.entries ≠ [] ∧
      mapGet s.wallets w.filename = none ∧
      mapGet s.firstAddrIDMap w.firstAddr = none ∧ saveOk = true) := by
  by_cases hapi : s.enableWalletAPI
  · have hcw : s.CreateWallet d name o bg saveOk =
        s.loadWallet d (if name = "" then s.generateUniqueWalletFilename else name) o bg saveOk := by
      simp only [Service.CreateWallet, hapi, Bool.not_true, Bool.false_eq_true, if_neg,
        not_false_iff]
    rw [hcw]
    exact loadWallet_spec s d _ o bg saveOk
  · left
    refine ⟨.walletAPIDisabled, ?_⟩
    have hb : s.enableWalletAPI = false := by
      cases hb2 : s.enableWalletAPI
      · rfl
      · exact absurd hb2 hapi
    simp only [Service.CreateWallet, hb, Bool.not_false, if_pos]

/-- CreateWallet preserves the store invariant. -/
theorem goodService_create (s : Service) (d : Disk) (name : String) (o : Options)
    (bg : String → Nat) (saveOk : Bool) (hg : GoodService s) :
    GoodService (s.CreateWallet d name o bg saveOk).2.1 := by
  rcases createWallet_spec s d name o bg saveOk with ⟨e, he⟩ | ⟨w, hw, hne, hadd, hidx, _⟩
  · rw [he]; exact hg
  · rw [hw]
    constructor
    · refine List.nodup_cons.mpr ⟨?_, hg.walletKeysNodup⟩
      intro hm
      rcases List.mem_map.mp hm with ⟨p, hp, hfp⟩
      exact absurd hfp ((mapGet_eq_none_iff _ _).mp hadd p hp)
    · exact keys_nodup_mapSet _ _ _ hg.idxKeysNodup
    · intro p hp
      rcases List.mem_cons.mp hp with he2 | hr
      · rw [he2]; exact hne
      · exact hg.entriesNonempty p hr
    · intro p hp
      rcases List.mem_cons.mp hp with he2 | hr
      · rw [he2]
        exact mapGet_mapSet_self _ _ _
      · have hst := hg.idxStores p hr
        have hne2 : p.2.firstAddr ≠ w.firstAddr := by
          intro he3
          rw [he3, hidx] at hst
          cases hst
        rw [mapGet_mapSet_ne _ _ _ _ hne2]
        exact hst
    · intro q hq
      rcases (mem_mapSet _ _ _ _).mp hq with he2 | ⟨hm, _⟩
      · refine ⟨(w.filename, w), by simp, ?_, ?_⟩
        · rw [he2]
        · rw [he2]
      · rcases hg.idxSound q hm with ⟨p, hp, h1, h2⟩
        exact ⟨p, by simp [hp], h1, h2⟩

/-- Remove preserves the store invariant. -/
theorem goodService_remove (s : Service) (d : Disk) (wltID : String)
    (hg : GoodService s) : GoodService (s.Remove d wltID).2.1 := by
  by_cases hapi : s.enableWalletAPI
  case neg =>
    have hb : s.enableWalletAPI = false := by
      cases hb2 : s.enableWalletAPI
      · rfl
      · exact absurd hb2 hapi
    simp only [Service.Remove, hb, Bool.not_false, if_pos]
    exact hg
  case pos =>
  simp only [Service.Remove, hapi, Bool.not_true, Bool.false_eq_true, if_neg, not_false_iff]
  cases hw : mapGet s.wallets wltID with
  | none =>
    have hdel : mapDel s.wallets wltID = s.wallets := mapDel_of_mapGet_none _ _ hw
    simp only [hdel]
    exact hg
  | some wlt =>
    have hmem : (wltID, wlt) ∈ s.wallets := mem_of_mapGet_eq_some _ _ _ hw
    have hne : wlt.entries ≠ [] := hg.entriesNonempty (wltID, wlt) hmem
    have hlen : wlt.entries.length > 0 := List.length_pos.mpr hne
    simp only [hlen, if_pos]
    constructor
    · exact keys_nodup_mapDel _ _ hg.walletKeysNodup
    · exact keys_nodup_mapDel _ _ hg.idxKeysNodup
    · intro p hp
      exact hg.entriesNonempty p ((mem_mapDel _ _ _).mp hp).1
    · intro p hp
      obtain ⟨hpm, hpk⟩ := (mem_mapDel _ _ _).mp hp
      have hst := hg.idxStores p hpm
      have hfa : p.2.firstAddr ≠ wlt.firstAddr := by
        intro he
        have hst2 := hg.idxStores (wltID, wlt) hmem
        rw [he] at hst
        rw [hst2] at hst
        injection hst with hid
        exact hpk hid.symm
      rw [mapGet_mapDel_ne _ _ _ hfa]
      exact hst
    · intro q hq
      obtain ⟨hqm, hqk⟩ := (mem_mapDel _ _ _).mp hq
      rcases hg.idxSound q hqm with ⟨p, hp, h1, h2⟩
      have hpk : p.1 ≠ wltID := by
        intro he
        have : p = (wltID, wlt) :=
          eq_of_fst_eq_of_keys_nodup s.wallets p (wltID, wlt) hg.walletKeysNodup hp hmem he
        rw [this] at h2
        exact hqk (h2 ▸ rfl)
      exact ⟨p, (mem_mapDel _ _ _).mpr ⟨hp, hpk⟩, h1, h2⟩

/-- RecoverWallet preserves the store invariant. -/
theorem goodService_recover (s : Service) (d : Disk) (wltName seed password : String)
    (saveOk : Bool) (hg : GoodService s) :
    GoodService (s.RecoverWallet d wltName seed password saveOk).2.1 := by
  cases hapi : s.enableWalletAPI with
  | false =>
    simp only [Service.RecoverWallet, hapi, Bool.not_false, if_pos]
    exact hg
  | true =>
    simp only [Service.RecoverWallet, hapi, Bool.not_true, Bool.false_eq_true, if_neg,
      not_false_iff, Service.getWallet]
    cases hget : mapGet s.wallets wltName with
    | none => exact hg
    | some w0 =>
      simp only [Wallet.clone]
      cases henc : w0.encrypted with
      | false =>
        simp only [Bool.not_false, if_pos]
        exact hg
      | true =>
        simp only [Bool.not_true, Bool.false_eq_true, if_neg, not_false_iff]
        by_cases htyp : w0.walletType ≠ WalletTypeDeterministic
        · simp only [if_pos htyp]
          exact hg
        · simp only [if_neg htyp]
          by_cases haddr : deriveAddress seed 0 ≠ w0.firstAddr
          · simp only [if_pos haddr]
            exact hg
          · simp only [if_neg haddr]
            push_neg at haddr
            cases hnw : NewWallet wltName
                { coin := w0.coin
                  label := w0.label
                  seed := seed
                  encrypt := password ≠ ""
                  password := password
                  cryptoType := w0.cryptoType
                  scanN := 0
                  generateN := w0.entries.length } with
            | error e => exact hg
            | ok w2a =>
              obtain ⟨hfn2, hlen2, hfa2, henc2, hts2, hty2⟩ := newWallet_props _ _ _ hnw
              cases saveOk with
              | false =>
                simp only [Wallet.Save, Bool.false_eq_true, if_neg, not_false_iff]
                exact hg
              | true =>
                simp only [Wallet.Save, if_pos, walletsSet, Wallet.clone]
                have hmem : (wltName, w0) ∈ s.wallets := mem_of_mapGet_eq_some _ _ _ hget
                have hfnW : (w2a.setTimestamp w0.timestamp).filename = wltName := by
                  rw [setTimestamp_filename]; exact hfn2
                have hfaW : (w2a.setTimestamp w0.timestamp).firstAddr = w0.firstAddr := by
                  rw [setTimestamp_firstAddr, hfa2, haddr]
                have hneW : (w2a.setTimestamp w0.timestamp).entries ≠ [] := by
                  rw [setTimestamp_entries]
                  intro hc
                  have := congrArg List.length hc
                  rw [hlen2] at this
                  simp at this
                constructor
                · exact keys_nodup_mapSet _ _ _ hg.walletKeysNodup
                · exact hg.idxKeysNodup
                · intro p hp
                  rcases (mem_mapSet _ _ _ _).mp hp with he2 | ⟨hm, _⟩
                  · rw [he2]
                    exact hneW
                  · exact hg.entriesNonempty p hm
                · intro p hp
                  rcases (mem_mapSet _ _ _ _).mp hp with he2 | ⟨hm, _⟩
                  · rw [he2]
                    show mapGet s.firstAddrIDMap (w2a.setTimestamp w0.timestamp).firstAddr =
                      some (w2a.setTimestamp w0.timestamp).filename
                    rw [hfaW, hfnW]
                    exact hg.idxStores (wltName, w0) hmem
                  · exact hg.idxStores p hm
                · intro q hq
                  rcases hg.idxSound q hq with ⟨p, hp, h1, h2⟩
                  by_cases hpk : p.1 = (w2a.setTimestamp w0.timestamp).filename
                  · have hpw : p = (wltName, w0) := by
                      apply eq_of_fst_eq_of_keys_nodup s.wallets p (wltName, w0)
                        hg.walletKeysNodup hp hmem
                      rw [hpk, hfnW]
                    refine ⟨((w2a.setTimestamp w0.timestamp).filename,
                      w2a.setTimestamp w0.timestamp), by simp [mem_mapSet], ?_, ?_⟩
                    · show (w2a.setTimestamp w0.timestamp).filename = q.2
                      rw [hfnW, ← h1, hpw]
                    · show (w2a.setTimestamp w0.timestamp).firstAddr = q.1
                      rw [hfaW, ← h2, hpw]
                  · exact ⟨p, (mem_mapSet _ _ _ _).mpr (Or.inr ⟨hp, hpk⟩), h1, h2⟩

/-- NewService establishes the store invariant. -/
theorem goodService_newService (c : Config) (d : Disk) (s : Service)
    (hd : (d.map Prod.fst).Nodup) (h : NewService c d = .ok s) : GoodService s := by
  unfold NewService at h
  cases hapi : c.enableWalletAPI with
  | false =>
    simp only [hapi, Bool.not_false, if_pos] at h
    injection h with h
    subst h
    constructor <;> simp
  | true =>
    simp only [hapi, Bool.not_true, Bool.false_eq_true, if_neg, not_false_iff,
      LoadWallets] at h
    cases hdup : containsDuplicate d with
    | true =>
      rw [hdup] at h
      simp at h
    | false =>
      rw [hdup] at h
      simp only [Bool.false_eq_true, if_neg, not_false_iff] at h
      cases hemp : containsEmpty d with
      | true =>
        rw [hemp] at h
        simp at h
      | false =>
        rw [hemp] at h
        simp only [Bool.false_eq_true, if_neg, not_false_iff] at h
        injection h with h
        subst h
        have hne : ∀ p ∈ d, p.2.entries ≠ [] := (containsEmpty_false_iff d).mp hemp
        have hnodup := containsDuplicate_false d hdup hne
        constructor
        · exact hd
        · exact buildIdx_keys_nodup d [] (by simp)
        · exact hne
        · intro p hp
          exact buildIdx_get d [] hnodup p hp
        · intro q hq
          rcases buildIdx_sound d [] q hq with hfalse | ⟨p, hp, he⟩
          · cases hfalse
          · refine ⟨p, hp, ?_, ?_⟩
            · rw [he]
            · rw [he]

/-- Reachable Service states: booted by `NewService` from a disk with unique
filenames, then driven by any sequence of `CreateWallet`, `Remove` and
`RecoverWallet` calls (each with its own parameters and save verdict). -/
inductive Reachable : Service → Disk → Prop where
  | boot (c : Config) (d : Disk) (s : Service) (hd : (d.map Prod.fst).Nodup)
      (h : NewService c d = .ok s) : Reachable s d
  | create (s : Service) (d : Disk) (name : String) (o : Options) (bg : String → Nat)
      (saveOk : Bool) (h : Reachable s d) :
      Reachable (s.CreateWallet d name o bg saveOk).2.1 (s.CreateWallet d name o bg saveOk).2.2
  | removeW (s : Service) (d : Disk) (wltID : String) (h : Reachable s d) :
      Reachable (s.Remove d wltID).2.1 (s.Remove d wltID).2.2
  | recover (s : Service) (d : Disk) (wltName seed password : String) (saveOk : Bool)
      (h : Reachable s d) :
      Reachable (s.RecoverWallet d wltName seed password saveOk).2.1
        (s.RecoverWallet d wltName seed password saveOk).2.2

/-- Every reachable Service state satisfies the store invariant. -/
theorem reachable_goodService (s : Service) (d : Disk) (h : Reachable s d) :
    GoodService s := by
  induction h with
  | boot c d0 s0 hd hok => exact goodService_newService c d0 s0 hd hok
  | create s0 d0 name o bg saveOk _ ih => exact goodService_create s0 d0 name o bg saveOk ih
  | removeW s0 d0 wltID _ ih => exact goodService_remove s0 d0 wltID ih
  | recover s0 d0 wltName seed password saveOk _ ih =>
    exact goodService_recover s0 d0 wltName seed password saveOk ih

/-! Concrete fixtures used by witnesses and counterexamples. -/

/-- An encrypted deterministic wallet holding seed `sa` under password `pw`. -/
def wEnc : Wallet :=
  { filename := "w1.wlt"
    label := "L1"
    coin := "skycoin"
    walletType := WalletTypeDeterministic
    cryptoType := "scrypt-chacha20poly1305"
    encrypted := true
    seed := ""
    secrets := some { password := "pw", seed := "sa", keys := [some (deriveSecret "sa" 0)] }
    entries := [{ address := deriveAddress "sa" 0, secret := none }]
    timestamp := 7 }

/-- A service holding the encrypted wallet, with both feature flags on. -/
def sEx : Service :=
  { wallets := [("w1.wlt", wEnc)]
    firstAddrIDMap := [(deriveAddress "sa" 0, "w1.wlt")]
    cryptoType := "scrypt-chacha20poly1305"
    enableWalletAPI := true
    enableSeedAPI := true }

/-- Disk matching `sEx`. -/
def dEx : Disk := [("w1.wlt", wEnc)]

/-- A plaintext deterministic wallet built from seed `sb`. -/
def wPlain : Wallet :=
  { filename := "w2.wlt"
    label := "L2"
    coin := "skycoin"
    walletType := WalletTypeDeterministic
    cryptoType := "scrypt-chacha20poly1305"
    encrypted := false
    seed := "sb"
    secrets := none
    entries := [mkEntry "sb" 0]
    timestamp := 9 }

/-- A service holding the plaintext wallet. -/
def sPlain : Service :=
  { wallets := [("w2.wlt", wPlain)]
    firstAddrIDMap := [(deriveAddress "sb" 0, "w2.wlt")]
    cryptoType := "scrypt-chacha20poly1305"
    enableWalletAPI := true
    enableSeedAPI := true }

/-- Disk matching `sPlain`. -/
def dPlain : Disk := [("w2.wlt", wPlain)]

/-- A plaintext wallet of a non-deterministic type. -/
def wOther : Wallet :=
  { filename := "w3.wlt"
    label := "L3"
    coin := "skycoin"
    walletType := "collection"
    cryptoType := "scrypt-chacha20poly1305"
    encrypted := false
    seed := "sc"
    secrets := none
    entries := [mkEntry "sc" 0]
    timestamp := 3 }

/-- A service holding the non-deterministic plaintext wallet. -/
def sOther : Service :=
  { wallets := [("w3.wlt", wOther)]
    firstAddrIDMap := [(deriveAddress "sc" 0, "w3.wlt")]
    cryptoType := "scrypt-chacha20poly1305"
    enableWalletAPI := true
    enableSeedAPI := true }

/-- Disk matching `sOther`. -/
def dOther : Disk := [("w3.wlt", wOther)]

/-- Creation options reusing the seed `sa` already present in `sEx`. -/
def oEx : Options :=
  { coin := "skycoin"
    label := "L"
    seed := "sa"
    encrypt := false
    password := ""
    cryptoType := "x"
    scanN := 0
    generateN := 1 }

/-- A balance oracle reporting zero for every address. -/
def bg0 : String → Nat := fun _ => 0

/-- A service configuration with the wallet API enabled. -/
def cEx : Config :=
  { cryptoType := "x", enableWalletAPI := true, enableSeedAPI := true }

/-- A disk holding two wallets that share a first address. -/
def dDup : Disk := [("a.wlt", wPlain), ("b.wlt", { wPlain with filename := "b.wlt" })]

/-- Valid transaction parameters addressing the encrypted wallet, without a
password. -/
def pEx : CreateTransactionParams :=
  { walletID := "w1.wlt", password := "", amount := 0, valid := true }

/-! Claim theorems. -/

/-- C1: for every service state and every `CreateWallet` call that fails with
`SeedConflict` (`ErrSeedUsed`) or with a `Persistence` error, the wallet map,
the first-address index and the on-disk wallet files are left exactly as they
were before the call. -/
theorem c1_createWallet_failure_frame (s : Service) (d : Disk) (name : String)
    (o : Options) (bg : String → Nat) (saveOk : Bool)
    (h : (s.CreateWallet d name o bg saveOk).1 = .error .seedUsed ∨
      (s.CreateWallet d name o bg saveOk).1 = .error .persistence) :
    (s.CreateWallet d name o bg saveOk).2.1 = s ∧
    (s.CreateWallet d name o bg saveOk).2.2 = d := by
  rcases createWallet_spec s d name o bg saveOk with ⟨e, he⟩ | ⟨w, hw, _, _, _, _⟩
  · rw [he]
    exact ⟨rfl, rfl⟩
  · rw [hw] at h
    rcases h with h | h <;> simp at h

/-- Witness for C1: creating a wallet from the seed already stored in `sEx`
fails with `ErrSeedUsed` and leaves the service and the disk unchanged. -/
theorem c1_witness :
    (sEx.CreateWallet dEx "w9.wlt" oEx bg0 true).2.1 = sEx ∧
    (sEx.CreateWallet dEx "w9.wlt" oEx bg0 true).2.2 = dEx :=
  c1_createWallet_failure_frame sEx dEx "w9.wlt" oEx bg0 true (Or.inl (by decide))

/-- C2: in every reachable Service state no two stored wallets share a first
address and the first-address index maps each stored wallet's first address to
that wallet's id; and `NewService` with the wallet API enabled aborts entirely
when two loaded wallets share a first address or some loaded wallet has zero
entries. -/
theorem c2_store_invariant :
    (∀ s d, Reachable s d →
      (∀ p q, p ∈ s.wallets → q ∈ s.wallets → p ≠ q →
        p.2.firstAddr ≠ q.2.firstAddr) ∧
      (∀ p ∈ s.wallets, mapGet s.firstAddrIDMap p.2.firstAddr = some p.1)) ∧
    (∀ c d, c.enableWalletAPI = true →
      containsDuplicate (LoadWallets d) = true ∨ containsEmpty (LoadWallets d) = true →
      ∃ e, NewService c d = .error e) := by
  constructor
  · intro s d h
    have hg := reachable_goodService s d h
    refine ⟨?_, hg.idxStores⟩
    intro p q hp hq hpq he
    have h1 := hg.idxStores p hp
    have h2 := hg.idxStores q hq
    rw [he] at h1
    rw [h1] at h2
    injection h2 with h3
    exact hpq (eq_of_fst_eq_of_keys_nodup s.wallets p q hg.walletKeysNodup hp hq h3)
  · intro c d hapi hc
    unfold NewService
    simp only [hapi, Bool.not_true, Bool.false_eq_true, if_neg, not_false_iff]
    cases hdup : containsDuplicate (LoadWallets d) with
    | true => exact ⟨.startupDuplicate, by simp [hdup]⟩
    | false =>
      rcases hc with hd | he
      · rw [hdup] at hd
        cases hd
      · exact ⟨.startupEmpty, by simp [hdup, he]⟩

/-- Witness for C2: booting from a disk holding two wallets with the same
first address aborts service construction. -/
theorem c2_witness : ∃ e, NewService cEx dDup = .error e :=
  c2_store_invariant.2 cEx dDup (by decide) (Or.inl (by decide))

/-- Counterexample to C3 as stated: on a stored *plaintext* deterministic
wallet, a recovery attempt whose seed-derived first address differs from the
stored one fails with `ErrWalletNotEncrypted`, not with the claimed
`RecoveryMismatch`. -/
theorem c3_counterexample :
    (sPlain.RecoverWallet dPlain "w2.wlt" "zz" "" true).1 = .error .walletNotEncrypted ∧
    (sPlain.RecoverWallet dPlain "w2.wlt" "zz" "" true).1 ≠ .error .recoverSeedWrong := by
  exact ⟨by decide, by decide⟩

/-- C3 (amended): for every stored **encrypted** deterministic wallet,
`RecoverWallet` fails with `RecoveryMismatch` when the first address derived
from the supplied seed differs from the stored wallet's first entry's address;
when it matches (and the save succeeds), the rebuilt wallet has the same number
of entries as the stored wallet, carries the original wallet's creation
timestamp, and is encrypted if and only if a non-empty new password was
supplied. -/
theorem c3_recoverWallet (s : Service) (d : Disk) (wltName seed password : String)
    (saveOk : Bool) (w : Wallet) (hapi : s.enableWalletAPI = true)
    (hw : mapGet s.wallets wltName = some w) (henc : w.encrypted = true)
    (hty : w.walletType = WalletTypeDeterministic) (hne : w.entries ≠ []) :
    (deriveAddress seed 0 ≠ w.firstAddr →
      (s.RecoverWallet d wltName seed password saveOk).1 = .error .recoverSeedWrong) ∧
    (deriveAddress seed 0 = w.firstAddr → saveOk = true →
      ∃ w2, (s.RecoverWallet d wltName seed password saveOk).1 = .ok w2 ∧
        w2.entries.length = w.entries.length ∧
        w2.timestamp = w.timestamp ∧
        (w2.encrypted = true ↔ password ≠ "")) := by
  simp only [Service.RecoverWallet, hapi, Bool.not_true, Bool.false_eq_true, if_neg,
    not_false_iff, Service.getWallet, hw, Wallet.clone, henc, hty, ne_eq,
    not_true_eq_false, if_false]
  constructor
  · intro hne2
    rw [if_pos hne2]
  · intro heq hsave
    subst hsave
    rw [if_neg (by simp [heq])]
    cases hnw : NewWallet wltName
        { coin := w.coin
          label := w.label
          seed := seed
          encrypt := password ≠ ""
          password := password
          cryptoType := w.cryptoType
          scanN := 0
          generateN := w.entries.length } with
    | error e => exact absurd hnw (newWallet_not_error _ _ e)
    | ok w2a =>
      obtain ⟨hfn2, hlen2, hfa2, henc2, hts2, hty2⟩ := newWallet_props _ _ _ hnw
      simp only [Wallet.Save, if_pos, Wallet.clone]
      refine ⟨w2a.setTimestamp w.timestamp, rfl, ?_, rfl, ?_⟩
      · rw [setTimestamp_entries, hlen2]
        exact Nat.max_eq_left (List.length_pos.mpr hne)
      · show (w2a.encrypted = true ↔ password ≠ "")
        rw [henc2]
        simp

/-- Witness for C3 (amended): recovering the encrypted wallet of `sEx` with the
matching seed `sa` and an empty new password succeeds, keeps the entry count
and the timestamp, and yields a plaintext wallet. -/
theorem c3_witness :
    ∃ w2, (sEx.RecoverWallet dEx "w1.wlt" "sa" "" true).1 = .ok w2 ∧
      w2.entries.length = wEnc.entries.length ∧ w2.timestamp = wEnc.timestamp ∧
      (w2.encrypted = true ↔ ("" : String) ≠ "") :=
  (c3_recoverWallet sEx dEx "w1.wlt" "sa" "" true wEnc (by decide) (by decide) (by decide)
    (by decide) (by decide)).2 (by decide) rfl

/-- Counterexample to C8 as stated: `Remove` on a wallet id that is not in the
store does not fail with `NotFound` — it returns success. -/
theorem c8_counterexample :
    (sEx.Remove dEx "nope.wlt").1 = .ok () ∧
    (sEx.Remove dEx "nope.wlt").1 ≠ .error .walletNotExist := by
  exact ⟨by decide, by decide⟩

/-- C8 (amended): with the feature flags on and an id absent from the store,
`EncryptWallet`, `DecryptWallet`, `NewAddresses`, `GetWallet`,
`UpdateWalletLabel`, `GetWalletSeed` and `RecoverWallet` each fail with
`NotFound` (`ErrWalletNotExist`) and leave the service and the disk unchanged,
while `Remove` succeeds as a no-op, also leaving the service and the disk
unchanged. -/
theorem c8_notFound (s : Service) (d : Disk) (wltID password label seed : String)
    (num : Nat) (saveOk : Bool) (hapi : s.enableWalletAPI = true) (hseedapi : s.enableSeedAPI = true)
    (hw : mapGet s.wallets wltID = none) :
    s.EncryptWallet d wltID password saveOk = (.error .walletNotExist, s, d) ∧
    s.DecryptWallet d wltID password saveOk = (.error .walletNotExist, s, d) ∧
    s.NewAddresses d wltID password num saveOk = (.error .walletNotExist, s, d) ∧
    s.GetWallet d wltID = (.error .walletNotExist, s, d) ∧
    s.UpdateWalletLabel d wltID label saveOk = (.error .walletNotExist, s, d) ∧
    s.GetWalletSeed d wltID password = (.error .walletNotExist, s, d) ∧
    s.RecoverWallet d wltID seed password saveOk = (.error .walletNotExist, s, d) ∧
    s.Remove d wltID = (.ok (), s, d) := by
  refine ⟨?_, ?_, ?_, ?_, ?_, ?_, ?_, ?_⟩
  · simp only [Service.EncryptWallet, hapi, Bool.not_true, Bool.false_eq_true, if_neg,
      not_false_iff, Service.getWallet, hw]
  · simp only [Service.DecryptWallet, hapi, Bool.not_true, Bool.false_eq_true, if_neg,
      not_false_iff, Service.getWallet, hw]
  · simp only [Service.NewAddresses, hapi, Bool.not_true, Bool.false_eq_true, if_neg,
      not_false_iff, Service.getWallet, hw]
  · simp only [Service.GetWallet, hapi, Bool.not_true, Bool.false_eq_true, if_neg,
      not_false_iff, Service.getWallet, hw]
  · simp only [Service.UpdateWalletLabel, hapi, Bool.not_true, Bool.false_eq_true, if_neg,
      not_false_iff, Service.getWallet, hw]
  · simp only [Service.GetWalletSeed, hapi, hseedapi, Bool.not_true, Bool.false_eq_true,
      if_neg, not_false_iff, Service.getWallet, hw]
  · simp only [Service.RecoverWallet, hapi, Bool.not_true, Bool.false_eq_true, if_neg,
      not_false_iff, Service.getWallet, hw]
  · simp only [Service.Remove, hapi, Bool.not_true, Bool.false_eq_true, if_neg,
      not_false_iff, hw]
    rw [mapDel_of_mapGet_none _ _ hw, ← hapi]

/-- Witness for C8 (amended): on the concrete store `sEx` and the absent id
`nope.wlt`, `GetWallet` fails with `NotFound` and `Remove` succeeds, both
leaving the state unchanged. -/
theorem c8_witness :
    sEx.GetWallet dEx "nope.wlt" = (.error .walletNotExist, sEx, dEx) ∧
    sEx.Remove dEx "nope.wlt" = (.ok (), sEx, dEx) := by
  have h := c8_notFound sEx dEx "nope.wlt" "p" "lbl" "sd" 1 true
    (by decide) (by decide) (by decide)
  exact ⟨h.2.2.2.1, h.2.2.2.2.2.2.2⟩

/-- C10: `RecoverWallet` requires the stored wallet to be encrypted: for every
unencrypted stored wallet — in particular with no constraint on its wallet
type, so also for a plaintext non-deterministic wallet — the call fails with
`ErrWalletNotEncrypted` (not `NotDeterministic`) and leaves the service and the
disk unchanged. -/
theorem c10_recover_requires_encrypted (s : Service) (d : Disk)
    (wltName seed password : String) (saveOk : Bool) (w : Wallet)
    (hapi : s.enableWalletAPI = true) (hw : mapGet s.wallets wltName = some w)
    (henc : w.encrypted = false) :
    s.RecoverWallet d wltName seed password saveOk =
      (.error .walletNotEncrypted, s, d) := by
  simp only [Service.RecoverWallet, hapi, Bool.not_true, Bool.false_eq_true, if_neg,
    not_false_iff, Service.getWallet, hw, Wallet.clone, henc, Bool.not_false, if_pos]

/-- Witness for C10: on the plaintext wallet of non-deterministic type stored
in `sOther`, recovery fails with `ErrWalletNotEncrypted`, not
`ErrWalletNotDeterministic`. -/
theorem c10_witness :
    sOther.RecoverWallet dOther "w3.wlt" "zz" "p" true =
      (.error .walletNotEncrypted, sOther, dOther) :=
  c10_recover_requires_encrypted sOther dOther "w3.wlt" "zz" "p" true wOther
    (by decide) (by decide) (by decide)

/-- C4: `CreateTransaction` validates its parameters before any wallet or
output is inspected (an invalid parameter set fails with `Validation` for every
store and every output set), and requires a password exactly when the wallet is
encrypted: an encrypted wallet with an empty password fails with
`MissingPassword` and an unencrypted wallet with a non-empty password fails
with `ErrWalletNotEncrypted` (the spec's `PasswordNotExpected`), in both cases
uniformly in the supplied outputs, i.e. before any transaction is
constructed. -/
theorem c4_createTransaction_password (s : Service) (d : Disk)
    (params : CreateTransactionParams) (auxs : List (String × Nat)) (headTime : Nat)
    (hapi : s.enableWalletAPI = true) :
    (params.valid = false →
      (s.CreateTransaction d params auxs headTime).1 = .error .validation) ∧
    (∀ w, params.valid = true → mapGet s.wallets params.walletID = some w →
      (w.encrypted = true → params.password = "" →
        (s.CreateTransaction d params auxs headTime).1 = .error .missingPassword) ∧
      (w.encrypted = false → params.password ≠ "" →
        (s.CreateTransaction d params auxs headTime).1 = .error .walletNotEncrypted)) := by
  constructor
  · intro hv
    have hval : params.Validate = .error .validation := by
      simp [CreateTransactionParams.Validate, hv]
    simp only [Service.CreateTransaction, hapi, Bool.not_true, Bool.false_eq_true, if_neg,
      not_false_iff, hval]
  · intro w hv hw
    have hval : params.Validate = .ok () := by
      simp [CreateTransactionParams.Validate, hv]
    constructor
    · intro henc hpw
      simp only [Service.CreateTransaction, hapi, Bool.not_true, Bool.false_eq_true, if_neg,
        not_false_iff, hval, Service.getWallet, hw, Wallet.clone]
      rw [if_pos ⟨henc, hpw⟩]
    · intro henc hpw
      simp only [Service.CreateTransaction, hapi, Bool.not_true, Bool.false_eq_true, if_neg,
        not_false_iff, hval, Service.getWallet, hw, Wallet.clone]
      rw [if_neg (fun hc => by rw [henc] at hc; exact absurd hc.1 (by decide))]
      rw [if_pos ⟨by simp [henc], hpw⟩]

/-- Witness for C4: on the encrypted wallet of `sEx`, a valid parameter set
with an empty password fails with `MissingPassword`. -/
theorem c4_witness :
    (sEx.CreateTransaction dEx pEx [] 0).1 = .error .missingPassword :=
  ((c4_createTransaction_password sEx dEx pEx [] 0 (by decide)).2 wEnc (by decide)
    (by decide)).1 (by decide) (by decide)

/-- C5: the read-only secret-access operations that run inside `GuardView` —
`GetWalletSeed` and `CreateTransaction` — never change the Service store or the
disk, for every wallet, password, parameter set and output set, whether the
guarded callback or the password check succeeds or fails. -/
theorem c5_guardView_frame (s : Service) (d : Disk) (wltID password : String)
    (params : CreateTransactionParams) (auxs : List (String × Nat)) (headTime : Nat) :
    (s.GetWalletSeed d wltID password).2.1 = s ∧
    (s.GetWalletSeed d wltID password).2.2 = d ∧
    (s.CreateTransaction d params auxs headTime).2.1 = s ∧
    (s.CreateTransaction d params auxs headTime).2.2 = d := by
  refine ⟨?_, ?_, ?_, ?_⟩
  · unfold Service.GetWalletSeed
    repeat' split
    all_goals rfl
  · unfold Service.GetWalletSeed
    repeat' split
    all_goals rfl
  · unfold Service.CreateTransaction
    dsimp only
    repeat' split
    all_goals rfl
  · unfold Service.CreateTransaction
    dsimp only
    repeat' split
    all_goals rfl

/-- C6: `GetWalletSeed` returns a seed only when the wallet-API flag and the
seed-API flag are both enabled and the addressed wallet exists and is
encrypted; a disabled wallet-API flag yields `ErrWalletAPIDisabled`, a disabled
seed-API flag yields `ErrSeedAPIDisabled`, and a stored plaintext wallet yields
`ErrWalletNotEncrypted` without exposing the seed. -/
theorem c6_getWalletSeed (s : Service) (d : Disk) (wltID password : String) :
    (∀ str, (s.GetWalletSeed d wltID password).1 = .ok str →
      s.enableWalletAPI = true ∧ s.enableSeedAPI = true ∧
      ∃ w, mapGet s.wallets wltID = some w ∧ w.encrypted = true) ∧
    (s.enableWalletAPI = false →
      (s.GetWalletSeed d wltID password).1 = .error .walletAPIDisabled) ∧
    (s.enableWalletAPI = true → s.enableSeedAPI = false →
      (s.GetWalletSeed d wltID password).1 = .error .seedAPIDisabled) ∧
    (∀ w, s.enableWalletAPI = true → s.enableSeedAPI = true →
      mapGet s.wallets wltID = some w → w.encrypted = false →
      (s.GetWalletSeed d wltID password).1 = .error .walletNotEncrypted) := by
  refine ⟨?_, ?_, ?_, ?_⟩
  · intro str hok
    cases hapi : s.enableWalletAPI with
    | false =>
      simp only [Service.GetWalletSeed, hapi, Bool.not_false, if_pos] at hok
      exact Except.noConfusion hok
    | true =>
      cases hseed : s.enableSeedAPI with
      | false =>
        simp only [Service.GetWalletSeed, hapi, hseed, Bool.not_true, Bool.not_false,
          Bool.false_eq_true, if_neg, not_false_iff, if_pos] at hok
        exact Except.noConfusion hok
      | true =>
        cases hw : mapGet s.wallets wltID with
        | none =>
          simp only [Service.GetWalletSeed, hapi, hseed, Bool.not_true, Bool.false_eq_true,
            if_neg, not_false_iff, Service.getWallet, hw] at hok
          exact Except.noConfusion hok
        | some w =>
          cases henc : w.encrypted with
          | false =>
            simp only [Service.GetWalletSeed, hapi, hseed, Bool.not_true, Bool.false_eq_true,
              if_neg, not_false_iff, Service.getWallet, hw, Wallet.clone, henc,
              Bool.not_false, if_pos] at hok
            exact Except.noConfusion hok
          | true => exact ⟨rfl, rfl, w, rfl, henc⟩
  · intro h
    simp only [Service.GetWalletSeed, h, Bool.not_false, if_pos]
  · intro h1 h2
    simp only [Service.GetWalletSeed, h1, h2, Bool.not_true, Bool.not_false,
      Bool.false_eq_true, if_neg, not_false_iff, if_pos]
  · intro w h1 h2 hw henc
    simp only [Service.GetWalletSeed, h1, h2, Bool.not_true, Bool.false_eq_true, if_neg,
      not_false_iff, Service.getWallet, hw, Wallet.clone, henc, Bool.not_false, if_pos]

/-- Witness for C6: with both flags on, the plaintext wallet of `sPlain`
refuses to expose its seed. -/
theorem c6_witness :
    (sPlain.GetWalletSeed dPlain "w2.wlt" "pw").1 = .error .walletNotEncrypted :=
  (c6_getWalletSeed sPlain dPlain "w2.wlt" "pw").2.2.2 wPlain (by decide) (by decide)
    (by decide) (by decide)

theorem lock_of_not_encrypted (w : Wallet) (pw ct : String) (h : w.encrypted = false) :
    w.Lock pw ct = .ok { w with
      encrypted := true
      cryptoType := ct
      seed := ""
      secrets := some { password := pw, seed := w.seed, keys := w.entries.map (fun e => e.secret) }
      entries := w.entries.map (fun e => { e with secret := none }) } := by
  unfold Wallet.Lock
  rw [h]
  simp

theorem unlock_ok_filename (w : Wallet) (pw : String) (u : Wallet)
    (h : w.Unlock pw = .ok u) : u.filename = w.filename := by
  unfold Wallet.Unlock at h
  split at h
  · exact Except.noConfusion h
  · split at h
    · exact Except.noConfusion h
    · split at h
      · injection h with h
        subst h
        rfl
      · exact Except.noConfusion h

/-- C7: `EncryptWallet` on an already-encrypted wallet and `DecryptWallet` on
an already-plaintext wallet each fail with the `AlreadyInState` error and leave
the service and the disk unchanged; otherwise the operation performs
Lock/Unlock, saves to disk, and only then publishes the changed wallet in
memory — in particular a failed save leaves the in-memory store untouched. -/
theorem c7_alreadyInState (s : Service) (d : Disk) (wltID password : String)
    (saveOk : Bool) (w : Wallet) (hapi : s.enableWalletAPI = true)
    (hw : mapGet s.wallets wltID = some w) (hfn : w.filename = wltID) :
    (w.encrypted = true →
      s.EncryptWallet d wltID password saveOk = (.error .walletEncrypted, s, d)) ∧
    (w.encrypted = false →
      s.DecryptWallet d wltID password saveOk = (.error .walletNotEncrypted, s, d)) ∧
    (w.encrypted = false → saveOk = false →
      s.EncryptWallet d wltID password saveOk = (.error .persistence, s, d)) ∧
    (w.encrypted = false → saveOk = true →
      ∃ wl, w.Lock password s.cryptoType = .ok wl ∧
        s.EncryptWallet d wltID password saveOk =
          (.ok wl, { s with wallets := mapSet s.wallets wltID wl }, mapSet d wltID wl)) ∧
    (∀ u, w.encrypted = true → w.Unlock password = .ok u → saveOk = false →
      s.DecryptWallet d wltID password saveOk = (.error .persistence, s, d)) ∧
    (∀ u, w.encrypted = true → w.Unlock password = .ok u → saveOk = true →
      s.DecryptWallet d wltID password saveOk =
        (.ok u, { s with wallets := mapSet s.wallets wltID u }, mapSet d wltID u)) := by
  refine ⟨?_, ?_, ?_, ?_, ?_, ?_⟩
  · intro henc
    simp only [Service.EncryptWallet, hapi, Bool.not_true, Bool.false_eq_true, if_neg,
      not_false_iff, Service.getWallet, hw, Wallet.clone, henc, if_pos]
  · intro henc
    simp only [Service.DecryptWallet, hapi, Bool.not_true, Bool.false_eq_true, if_neg,
      not_false_iff, Service.getWallet, hw, Wallet.clone, henc, Bool.not_false, if_pos]
  · intro henc hsave
    subst hsave
    simp only [Service.EncryptWallet, hapi, Bool.not_true, Bool.false_eq_true, if_neg,
      not_false_iff, Service.getWallet, hw, Wallet.clone, henc,
      lock_of_not_encrypted w password s.cryptoType henc, Wallet.Save, if_neg]
  · intro henc hsave
    subst hsave
    refine ⟨_, lock_of_not_encrypted w password s.cryptoType henc, ?_⟩
    simp only [Service.EncryptWallet, hapi, Bool.not_true, Bool.false_eq_true, if_neg,
      not_false_iff, Service.getWallet, hw, Wallet.clone, henc,
      lock_of_not_encrypted w password s.cryptoType henc, Wallet.Save, if_pos, walletsSet,
      Wallet.clone]
    rw [hfn]
  · intro u henc hunlock hsave
    subst hsave
    simp only [Service.DecryptWallet, hapi, Bool.not_true, Bool.false_eq_true, if_neg,
      not_false_iff, Service.getWallet, hw, Wallet.clone, henc, hunlock, Wallet.Save, if_neg]
  · intro u henc hunlock hsave
    subst hsave
    simp only [Service.DecryptWallet, hapi, Bool.not_true, Bool.false_eq_true, if_neg,
      not_false_iff, Service.getWallet, hw, Wallet.clone, henc, hunlock, Wallet.Save,
      if_pos, walletsSet, Wallet.clone]
    rw [unlock_ok_filename w password u hunlock, hfn]

/-- Witness for C7: encrypting the already-encrypted wallet of `sEx` fails with
`ErrWalletEncrypted` and changes nothing. -/
theorem c7_witness :
    sEx.EncryptWallet dEx "w1.wlt" "pw2" true = (.error .walletEncrypted, sEx, dEx) :=
  (c7_alreadyInState sEx dEx "w1.wlt" "pw2" true wEnc (by decide) (by decide)
    (by decide)).1 (by decide)

/-! Object-identity facts for the pointer model. -/

theorem snd_mem_mapSet {κ α : Type} [DecidableEq κ] (m : List (κ × α)) (k : κ) (v x : α)
    (hx : x ∈ (mapSet m k v).map Prod.snd) : x = v ∨ x ∈ m.map Prod.snd := by
  rcases List.mem_map.mp hx with ⟨p, hp, he⟩
  rcases (mem_mapSet m k v p).mp hp with he2 | ⟨hm, _⟩
  · left
    rw [← he, he2]
  · right
    exact List.mem_map.mpr ⟨p, hm, he⟩

namespace Ptr

/-- Store references all point below the heap's allocation frontier. -/
def wf (s : PService) (h : Heap) : Prop := ∀ r ∈ s.refs, r < h.nxt

theorem readD_write_ne (h : Heap) (r r' : Nat) (v : Wallet) (hne : r' ≠ r) :
    (h.write r v).readD r' = h.readD r' := by
  unfold Heap.write Heap.readD
  rw [mapGet_mapSet_ne _ _ _ _ hne]

theorem view_write_of_not_mem (s : PService) (h : Heap) (r : Nat) (v : Wallet)
    (hr : r ∉ s.refs) : view s (h.write r v) = view s h := by
  unfold view
  apply List.map_congr_left
  intro p hp
  have hne : p.2 ≠ r := fun he => hr (he ▸ List.mem_map.mpr ⟨p, hp, rfl⟩)
  rw [readD_write_ne h r p.2 v hne]

/-- A reference freshly handed to the caller: it is not among the store's
references, so writing any wallet value through it leaves the caller-visible
view of the store untouched. -/
def freshResult (s : PService) (h : Heap) (r : Nat) : Prop :=
  r ∉ s.refs ∧ ∀ v, view s (h.write r v) = view s h

theorem freshResult_of_not_mem (s : PService) (h : Heap) (r : Nat)
    (hr : r ∉ s.refs) : freshResult s h r :=
  ⟨hr, fun v => view_write_of_not_mem s h r v hr⟩

theorem not_mem_refs_of_wf (s : PService) (h : Heap) (hwf : wf s h) (x : Nat)
    (hx : h.nxt ≤ x) : x ∉ s.refs := by
  intro hm
  have := hwf x hm
  omega

theorem getWallet_fresh (s : PService) (h : Heap) (wltID : String) (hwf : wf s h)
    (r : Nat) (hok : (PService.GetWallet s h wltID).1 = .ok r) :
    freshResult (PService.GetWallet s h wltID).2.1 (PService.GetWallet s h wltID).2.2 r := by
  unfold PService.GetWallet PService.getWallet at hok ⊢
  cases hapi : s.enableWalletAPI with
  | false => simp [hapi] at hok
  | true =>
    simp only [hapi, Bool.not_true, Bool.false_eq_true, if_neg, not_false_iff] at hok ⊢
    cases hget : mapGet s.wallets wltID with
    | none => simp [hget] at hok
    | some r0 =>
      simp only [hget, Heap.cloneRef, Heap.alloc] at hok ⊢
      injection hok with hok
      subst hok
      exact freshResult_of_not_mem _ _ _
        (not_mem_refs_of_wf s h hwf h.nxt (Nat.le_refl _))

theorem getWallets_fold_refs (l : List (String × Nat)) :
    ∀ (acc : List (String × Nat) × Heap) (x : Nat),
      x ∈ ((l.foldl (fun acc p =>
          (acc.1 ++ [(p.1, (acc.2.cloneRef p.2).1)], (acc.2.cloneRef p.2).2)) acc).1.map
            Prod.snd) →
      x ∈ acc.1.map Prod.snd ∨ acc.2.nxt ≤ x := by
  induction l with
  | nil =>
    intro acc x hx
    exact Or.inl hx
  | cons p rest ih =>
    intro acc x hx
    rcases ih _ x hx with hmem | hge
    · rw [List.map_append] at hmem
      rcases List.mem_append.mp hmem with h1 | h2
      · exact Or.inl h1
      · simp only [List.map_cons, List.map_nil, List.mem_singleton] at h2
        right
        have he : (acc.2.cloneRef p.2).1 = acc.2.nxt := rfl
        rw [he] at h2
        omega
    · right
      have he : (acc.2.cloneRef p.2).2.nxt = acc.2.nxt + 1 := rfl
      rw [he] at hge
      omega

theorem getWallets_fresh (s : PService) (h : Heap) (hwf : wf s h)
    (l : List (String × Nat)) (r : Nat) (hok : (PService.GetWallets s h).1 = .ok l)
    (hr : r ∈ l.map Prod.snd) :
    freshResult (PService.GetWallets s h).2.1 (PService.GetWallets s h).2.2 r := by
  unfold PService.GetWallets at hok ⊢
  cases hapi : s.enableWalletAPI with
  | false => simp [hapi] at hok
  | true =>
    simp only [hapi, Bool.not_true, Bool.false_eq_true, if_neg, not_false_iff] at hok ⊢
    injection hok with hok
    subst hok
    rcases getWallets_fold_refs s.wallets ([], h) r hr with hnil | hge
    · simp at hnil
    · exact freshResult_of_not_mem _ _ _ (not_mem_refs_of_wf s h hwf r hge)

end Ptr

namespace Ptr

theorem cloneRef_fst (h : Heap) (r : Nat) : (h.cloneRef r).1 = h.nxt := rfl

theorem cloneRef_nxt (h : Heap) (r : Nat) : (h.cloneRef r).2.nxt = h.nxt + 1 := rfl

theorem alloc_fst (h : Heap) (w : Wallet) : (h.alloc w).1 = h.nxt := rfl

theorem alloc_nxt (h : Heap) (w : Wallet) : (h.alloc w).2.nxt = h.nxt + 1 := rfl

theorem write_nxt (h : Heap) (r : Nat) (v : Wallet) : (h.write r v).nxt = h.nxt := rfl

theorem cloneRef_readD_self (h : Heap) (r : Nat) :
    (h.cloneRef r).2.readD (h.cloneRef r).1 = h.readD r := by
  unfold Heap.cloneRef Heap.alloc Heap.readD
  simp [mapGet]

theorem not_mem_snd_mapSet {κ α : Type} [DecidableEq κ] (m : List (κ × α)) (k : κ)
    (v x : α) (h1 : x ≠ v) (h2 : x ∉ m.map Prod.snd) :
    x ∉ (mapSet m k v).map Prod.snd :=
  fun hm => (snd_mem_mapSet m k v x hm).elim (fun he => h1 he) (fun hm2 => h2 hm2)

theorem encryptWallet_fresh (s : PService) (h : Heap) (d : Disk)
    (wltID password : String) (saveOk : Bool) (hwf : wf s h) (r : Nat)
    (hok : (PService.EncryptWallet s h d wltID password saveOk).1 = .ok r) :
    freshResult (PService.EncryptWallet s h d wltID password saveOk).2.1
      (PService.EncryptWallet s h d wltID password saveOk).2.2.1 r := by
  unfold PService.EncryptWallet at hok ⊢
  cases hapi : s.enableWalletAPI with
  | false => simp [hapi] at hok
  | true =>
    simp only [hapi, Bool.not_true, Bool.false_eq_true, if_neg, not_false_iff] at hok ⊢
    cases hget : mapGet s.wallets wltID with
    | none => simp [hget] at hok
    | some r0 =>
      simp only [hget] at hok ⊢
      rw [cloneRef_readD_self h r0] at hok ⊢
      cases henc : (h.readD r0).encrypted with
      | true => simp [henc] at hok
      | false =>
        simp only [henc, Bool.false_eq_true, if_neg, not_false_iff] at hok ⊢
        cases hlock : (h.readD r0).Lock password s.cryptoType with
        | error e => simp [hlock] at hok
        | ok wl =>
          simp only [hlock] at hok ⊢
          cases saveOk with
          | false => simp [Wallet.Save] at hok
          | true =>
            simp only [Wallet.Save, if_pos, cloneRef_fst, write_nxt, cloneRef_nxt]
              at hok ⊢
            injection hok with hok
            subst hok
            apply freshResult_of_not_mem
            simp only [PService.refs]
            apply not_mem_snd_mapSet
            · omega
            · intro hm
              have := hwf _ hm
              omega

theorem decryptWallet_fresh (s : PService) (h : Heap) (d : Disk)
    (wltID password : String) (saveOk : Bool) (hwf : wf s h) (r : Nat)
    (hok : (PService.DecryptWallet s h d wltID password saveOk).1 = .ok r) :
    freshResult (PService.DecryptWallet s h d wltID password saveOk).2.1
      (PService.DecryptWallet s h d wltID password saveOk).2.2.1 r := by
  unfold PService.DecryptWallet at hok ⊢
  cases hapi : s.enableWalletAPI with
  | false => simp [hapi] at hok
  | true =>
    simp only [hapi, Bool.not_true, Bool.false_eq_true, if_neg, not_false_iff] at hok ⊢
    cases hget : mapGet s.wallets wltID with
    | none => simp [hget] at hok
    | some r0 =>
      simp only [hget] at hok ⊢
      rw [cloneRef_readD_self h r0] at hok ⊢
      cases henc : (h.readD r0).encrypted with
      | false => simp [henc] at hok
      | true =>
        simp only [henc, Bool.not_true, Bool.false_eq_true, if_neg, not_false_iff] at hok ⊢
        cases hunlock : (h.readD r0).Unlock password with
        | error e => simp [hunlock] at hok
        | ok u =>
          simp only [hunlock] at hok ⊢
          cases saveOk with
          | false => simp [Wallet.Save] at hok
          | true =>
            simp only [Wallet.Save, if_pos, alloc_fst, alloc_nxt, cloneRef_fst,
              cloneRef_nxt] at hok ⊢
            injection hok with hok
            subst hok
            apply freshResult_of_not_mem
            simp only [PService.refs]
            apply not_mem_snd_mapSet
            · omega
            · intro hm
              have := hwf _ hm
              omega

theorem createWallet_fresh (s : PService) (h : Heap) (d : Disk) (wltName : String)
    (o : Options) (bg : String → Nat) (saveOk : Bool) (hwf : wf s h) (r : Nat)
    (hok : (PService.CreateWallet s h d wltName o bg saveOk).1 = .ok r) :
    freshResult (PService.CreateWallet s h d wltName o bg saveOk).2.1
      (PService.CreateWallet s h d wltName o bg saveOk).2.2.1 r := by
  unfold PService.CreateWallet at hok ⊢
  cases hapi : s.enableWalletAPI with
  | false => simp [hapi] at hok
  | true =>
    simp only [hapi, Bool.not_true, Bool.false_eq_true, if_neg, not_false_iff] at hok ⊢
    cases hscan : NewWalletScanAhead wltName
        (if o.encrypt then { o with cryptoType := s.cryptoType } else o) bg with
    | error e => simp [hscan] at hok
    | ok w =>
      simp only [hscan] at hok ⊢
      cases hidx : mapGet s.firstAddrIDMap w.firstAddr with
      | some id0 => simp [hidx] at hok
      | none =>
        simp only [hidx] at hok ⊢
        cases hadd : mapGet s.wallets w.filename with
        | some r1 => simp [hadd] at hok
        | none =>
          simp only [hadd] at hok ⊢
          cases saveOk with
          | false => simp [Wallet.Save] at hok
          | true =>
            simp only [Wallet.Save, if_pos, alloc_fst, alloc_nxt, cloneRef_fst,
              cloneRef_nxt] at hok ⊢
            injection hok with hok
            subst hok
            apply freshResult_of_not_mem
            simp only [PService.refs, List.map_cons, List.mem_cons]
            intro hm
            rcases hm with he | hmem
            · omega
            · have := hwf _ hmem
              omega

theorem recoverWallet_fresh (s : PService) (h : Heap) (d : Disk)
    (wltName seed password : String) (saveOk : Bool) (hwf : wf s h) (r : Nat)
    (hok : (PService.RecoverWallet s h d wltName seed password saveOk).1 = .ok r) :
    freshResult (PService.RecoverWallet s h d wltName seed password saveOk).2.1
      (PService.RecoverWallet s h d wltName seed password saveOk).2.2.1 r := by
  unfold PService.RecoverWallet at hok ⊢
  cases hapi : s.enableWalletAPI with
  | false => simp [hapi] at hok
  | true =>
    simp only [hapi, Bool.not_true, Bool.false_eq_true, if_neg, not_false_iff] at hok ⊢
    cases hget : mapGet s.wallets wltName with
    | none => simp [hget] at hok
    | some r0 =>
      simp only [hget] at hok ⊢
      rw [cloneRef_readD_self h r0] at hok ⊢
      cases henc : (h.readD r0).encrypted with
      | false => simp [henc] at hok
      | true =>
        simp only [henc, Bool.not_true, Bool.false_eq_true, if_neg, not_false_iff] at hok ⊢
        by_cases htyp : (h.readD r0).walletType ≠ WalletTypeDeterministic
        · simp [if_pos htyp] at hok
        · simp only [if_neg htyp] at hok ⊢
          by_cases haddr : deriveAddress seed 0 ≠ (h.readD r0).firstAddr
          · simp [if_pos haddr] at hok
          · simp only [if_neg haddr] at hok ⊢
            simp only [ne_eq, decide_not] at hok ⊢
            cases hnw : NewWallet wltName
                { coin := (h.readD r0).coin
                  label := (h.readD r0).label
                  seed := seed
                  encrypt := !decide (password = "")
                  password := password
                  cryptoType := (h.readD r0).cryptoType
                  scanN := 0
                  generateN := (h.readD r0).entries.length } with
            | error e =>
              rw [hnw] at hok
              simp at hok
            | ok w2a =>
              rw [hnw] at hok
              cases saveOk with
              | false => simp [Wallet.Save] at hok
              | true =>
                simp only [Wallet.Save, if_pos, alloc_fst, alloc_nxt, cloneRef_fst,
                  cloneRef_nxt, write_nxt] at hok ⊢
                injection hok with hok
                subst hok
                apply freshResult_of_not_mem
                simp only [PService.refs]
                apply not_mem_snd_mapSet
                · omega
                · intro hm
                  have := hwf _ hm
                  omega

end Ptr

/-- A pointer-model service holding one wallet object at reference 0. -/
def psEx : Ptr.PService :=
  { wallets := [("w1.wlt", 0)]
    firstAddrIDMap := [(deriveAddress "sa" 0, "w1.wlt")]
    cryptoType := "scrypt-chacha20poly1305"
    enableWalletAPI := true
    enableSeedAPI := true }

/-- Heap matching `psEx`: one allocated wallet object. -/
def phEx : Ptr.Heap := { mem := [(0, wEnc)], nxt := 1 }

/-- C9: every Service method that returns a Wallet to its caller — `GetWallet`,
`GetWallets`, `CreateWallet`, `EncryptWallet`, `DecryptWallet`,
`RecoverWallet` — returns a reference to a freshly allocated deep copy, never a
reference held in the store; consequently writing any wallet value through the
returned reference leaves the caller-visible view of the stored wallets
unchanged. -/
theorem c9_returns_deep_copies (s : Ptr.PService) (h : Ptr.Heap) (d : Disk)
    (wltID wltName seed password name : String) (o : Options)
    (bg : String → Nat) (saveOk : Bool) (hwf : Ptr.wf s h) :
    (∀ r, (Ptr.PService.GetWallet s h wltID).1 = .ok r →
      Ptr.freshResult (Ptr.PService.GetWallet s h wltID).2.1
        (Ptr.PService.GetWallet s h wltID).2.2 r) ∧
    (∀ l r, (Ptr.PService.GetWallets s h).1 = .ok l → r ∈ l.map Prod.snd →
      Ptr.freshResult (Ptr.PService.GetWallets s h).2.1
        (Ptr.PService.GetWallets s h).2.2 r) ∧
    (∀ r, (Ptr.PService.CreateWallet s h d name o bg saveOk).1 = .ok r →
      Ptr.freshResult (Ptr.PService.CreateWallet s h d name o bg saveOk).2.1
        (Ptr.PService.CreateWallet s h d name o bg saveOk).2.2.1 r) ∧
    (∀ r, (Ptr.PService.EncryptWallet s h d wltID password saveOk).1 = .ok r →
      Ptr.freshResult (Ptr.PService.EncryptWallet s h d wltID password saveOk).2.1
        (Ptr.PService.EncryptWallet s h d wltID password saveOk).2.2.1 r) ∧
    (∀ r, (Ptr.PService.DecryptWallet s h d wltID password saveOk).1 = .ok r →
      Ptr.freshResult (Ptr.PService.DecryptWallet s h d wltID password saveOk).2.1
        (Ptr.PService.DecryptWallet s h d wltID password saveOk).2.2.1 r) ∧
    (∀ r, (Ptr.PService.RecoverWallet s h d wltName seed password saveOk).1 = .ok r →
      Ptr.freshResult (Ptr.PService.RecoverWallet s h d wltName seed password saveOk).2.1
        (Ptr.PService.RecoverWallet s h d wltName seed password saveOk).2.2.1 r) :=
  ⟨fun r hok => Ptr.getWallet_fresh s h wltID hwf r hok,
   fun l r hok hr => Ptr.getWallets_fresh s h hwf l r hok hr,
   fun r hok => Ptr.createWallet_fresh s h d name o bg saveOk hwf r hok,
   fun r hok => Ptr.encryptWallet_fresh s h d wltID password saveOk hwf r hok,
   fun r hok => Ptr.decryptWallet_fresh s h d wltID password saveOk hwf r hok,
   fun r hok => Ptr.recoverWallet_fresh s h d wltName seed password saveOk hwf r hok⟩

/-- Witness for C9: on the one-wallet pointer store, `GetWallet` hands out the
freshly allocated reference 1, disjoint from the store. -/
theorem c9_witness :
    Ptr.freshResult (Ptr.PService.GetWallet psEx phEx "w1.wlt").2.1
      (Ptr.PService.GetWallet psEx phEx "w1.wlt").2.2 1 :=
  (c9_returns_deep_copies psEx phEx dEx "w1.wlt" "w" "s" "p" "n" oEx bg0 true
    (by intro r hr; simp [Ptr.PService.refs, psEx] at hr; subst hr; decide)).1 1 (by decide)
